import Mathlib

set_option autoImplicit false
set_option maxHeartbeats 1000000
set_option linter.unusedSectionVars false

/-
Shallow embedding of pgbedrock's privilege reconciliation engine
(src/pgbedrock/privileges.py).

Modelling conventions, used throughout:
- A Python set is modelled as a duplicate-free list built with setInsert /
  setUnion / toSet; all set operations are membership-based, so the
  (arbitrary) iteration order of a Python set never leaks into results
  except through sorted(), which is modelled with insertion sort.
- A Python dict is an association list; dict.get with a default is
  List.lookup followed by getD.
- A raised exception (common.fail, KeyError) is Except.error.
- Non-termination of an unbounded recursion is modelled with an explicit
  fuel parameter; the Option value none means the recursion does not
  terminate for any fuel actually available (Python: infinite recursion /
  RecursionError).
-/

section ListSetHelpers

variable {α : Type} {β : Type} [DecidableEq α] [DecidableEq β]

/-- Adding one element to a Python set: no-op if already present. -/
def setInsert (s : List α) (x : α) : List α :=
  if x ∈ s then s else s ++ [x]

/-- Python set.update / union. -/
def setUnion (s t : List α) : List α :=
  t.foldl setInsert s

/-- Python set(iterable): deduplicate, keeping first occurrences. -/
def toSet (l : List α) : List α :=
  setUnion [] l

/-- Python set.difference. -/
def setDiff (s t : List α) : List α :=
  s.filter (fun a => decide (a ∉ t))

/-- itertools.product of two lists. -/
def listProd (xs : List α) (ys : List β) : List (α × β) :=
  xs.foldr (fun x acc => ys.map (fun y => (x, y)) ++ acc) []

@[simp] theorem mem_setInsert (x y : α) (s : List α) :
    x ∈ setInsert s y ↔ x ∈ s ∨ x = y := by
  unfold setInsert
  split
  · constructor
    · exact Or.inl
    · rintro (h | rfl) <;> assumption
  · simp [List.mem_append]

@[simp] theorem mem_setUnion (x : α) (s t : List α) :
    x ∈ setUnion s t ↔ x ∈ s ∨ x ∈ t := by
  induction t generalizing s with
  | nil => simp [setUnion]
  | cons y t ih =>
    show x ∈ setUnion (setInsert s y) t ↔ _
    rw [ih]
    simp [List.mem_cons]
    tauto

@[simp] theorem mem_toSet (x : α) (l : List α) : x ∈ toSet l ↔ x ∈ l := by
  unfold toSet
  simp

@[simp] theorem mem_setDiff (x : α) (s t : List α) :
    x ∈ setDiff s t ↔ x ∈ s ∧ x ∉ t := by
  unfold setDiff
  simp

theorem setDiff_eq_nil (s t : List α) (h : ∀ x ∈ s, x ∈ t) : setDiff s t = [] := by
  unfold setDiff
  rw [List.filter_eq_nil_iff]
  intro a ha
  simpa using h a ha

@[simp] theorem mem_listProd (p : α × β) (xs : List α) (ys : List β) :
    p ∈ listProd xs ys ↔ p.1 ∈ xs ∧ p.2 ∈ ys := by
  induction xs with
  | nil => simp [listProd]
  | cons x xs ih =>
    show p ∈ ys.map (fun y => (x, y)) ++ listProd xs ys ↔ _
    rcases p with ⟨a, b⟩
    simp only [List.mem_append, List.mem_map, List.mem_cons]
    constructor
    · rintro (⟨y, hy, h⟩ | h)
      · cases h
        exact ⟨Or.inl rfl, hy⟩
      · rcases ih.mp h with ⟨h1, h2⟩
        exact ⟨Or.inr h1, h2⟩
    · rintro ⟨rfl | h1, h2⟩
      · exact Or.inl ⟨b, h2, rfl⟩
      · exact Or.inr (ih.mpr ⟨h1, h2⟩)

end ListSetHelpers

section StringHelpers

/-- Python str.upper() (characterwise). -/
def strUpper (s : String) : String :=
  ⟨s.data.map Char.toUpper⟩

/-- Python s[:-1]. -/
def strDropLast (s : String) : String :=
  ⟨s.data.dropLast⟩

/-- Python s[:-2]. -/
def strDropLast2 (s : String) : String :=
  ⟨s.data.dropLast.dropLast⟩

/-- Python item.endswith('.*'). -/
def endsWithDotStar (s : String) : Bool :=
  match s.data.reverse with
  | '*' :: '.' :: _ => true
  | _ => false

/-- Python item.split('.', 1): the part before the first dot, and, when a dot
occurs, the part after it. -/
def splitFirstDot (s : String) : String × Option String :=
  match s.data.dropWhile (fun c => c != '.') with
  | [] => (⟨s.data.takeWhile (fun c => c != '.')⟩, none)
  | _ :: rest => (⟨s.data.takeWhile (fun c => c != '.')⟩, some ⟨rest⟩)

theorem string_ext {a b : String} (h : a.data = b.data) : a = b := by
  cases a
  cases b
  cases h
  rfl

theorem string_data_append (a b : String) : (a ++ b).data = a.data ++ b.data := rfl

theorem takeDrop_dot (l : List Char) :
    (match l.dropWhile (fun c => c != '.') with
      | [] => l.takeWhile (fun c => c != '.')
      | _ :: rest => l.takeWhile (fun c => c != '.') ++ '.' :: rest) = l := by
  induction l with
  | nil => rfl
  | cons c cs ih =>
    by_cases h : c = '.'
    · subst h
      simp [List.dropWhile, List.takeWhile]
    · have hb : (c != '.') = true := by simp [h]
      simp only [List.dropWhile, List.takeWhile, hb]
      cases hd : cs.dropWhile (fun c => c != '.') with
      | nil =>
        rw [hd] at ih
        simpa using ih
      | cons d ds =>
        rw [hd] at ih
        simpa using ih

/-- Re-joining the two halves of splitFirstDot gives back the original
string. -/
theorem splitFirstDot_reconstruct (s : String) :
    (match (splitFirstDot s).2 with
      | some rest => (splitFirstDot s).1 ++ "." ++ rest
      | none => (splitFirstDot s).1) = s := by
  apply string_ext
  unfold splitFirstDot
  cases hd : s.data.dropWhile (fun c => c != '.') with
  | nil =>
    have := takeDrop_dot s.data
    rw [hd] at this
    simpa using this
  | cons d ds =>
    have := takeDrop_dot s.data
    rw [hd] at this
    simp only []
    rw [string_data_append, string_data_append]
    simpa using this

theorem takeWhile_all {p : Char → Bool} (l : List Char) (h : ∀ c ∈ l, p c = true) :
    l.takeWhile p = l := by
  induction l with
  | nil => rfl
  | cons c cs ih =>
    have hc := h c (List.mem_cons_self c cs)
    simp [List.takeWhile, hc, ih fun x hx => h x (List.mem_cons_of_mem c hx)]

theorem dropWhile_all {p : Char → Bool} (l : List Char) (h : ∀ c ∈ l, p c = true) :
    l.dropWhile p = [] := by
  induction l with
  | nil => rfl
  | cons c cs ih =>
    have hc := h c (List.mem_cons_self c cs)
    simp [List.dropWhile, hc, ih fun x hx => h x (List.mem_cons_of_mem c hx)]

theorem takeWhile_append_dot (sd nd : List Char) (h : '.' ∉ sd) :
    (sd ++ '.' :: nd).takeWhile (fun c => c != '.') = sd := by
  induction sd with
  | nil => simp [List.takeWhile]
  | cons c cs ih =>
    have hne : c ≠ '.' := by
      intro hq
      exact h (by simp [hq])
    have hc : (c != '.') = true := by simp [hne]
    rw [List.cons_append]
    simp only [List.takeWhile_cons, hc, if_true]
    rw [ih fun hm => h (List.mem_cons_of_mem c hm)]

theorem dropWhile_append_dot (sd nd : List Char) (h : '.' ∉ sd) :
    (sd ++ '.' :: nd).dropWhile (fun c => c != '.') = '.' :: nd := by
  induction sd with
  | nil => simp [List.dropWhile]
  | cons c cs ih =>
    have hne : c ≠ '.' := by
      intro hq
      exact h (by simp [hq])
    have hc : (c != '.') = true := by simp [hne]
    rw [List.cons_append]
    simp only [List.dropWhile_cons, hc, if_true]
    exact ih fun hm => h (List.mem_cons_of_mem c hm)

/-- Splitting a dot-free string yields the string itself and no object part. -/
theorem splitFirstDot_noDot (s : String) (h : '.' ∉ s.data) :
    splitFirstDot s = (s, none) := by
  unfold splitFirstDot
  have hall : ∀ c ∈ s.data, (c != '.') = true := by
    intro c hc
    have : c ≠ '.' := fun hq => h (hq ▸ hc)
    simpa using this
  rw [dropWhile_all s.data hall, takeWhile_all s.data hall]

/-- Splitting schema.object at the first dot recovers the two components when
the schema name is dot-free. -/
theorem splitFirstDot_qualified (schema objname : String) (h : '.' ∉ schema.data) :
    splitFirstDot (schema ++ "." ++ objname) = (schema, some objname) := by
  unfold splitFirstDot
  have hdata : (schema ++ "." ++ objname).data = schema.data ++ '.' :: objname.data := by
    rw [string_data_append, string_data_append]
    simp
  rw [hdata, dropWhile_append_dot schema.data objname.data h,
    takeWhile_append_dot schema.data objname.data h]

/-- Substring-of relation on strings, used to state which identifiers an
error message carries. -/
def strHasSubstr (s sub : String) : Prop :=
  sub.data <:+: s.data

instance (s sub : String) : Decidable (strHasSubstr s sub) :=
  inferInstanceAs (Decidable (sub.data <:+: s.data))

theorem strHasSubstr_middle (x m y : String) : strHasSubstr (x ++ m ++ y) m := by
  unfold strHasSubstr
  refine ⟨x.data, y.data, ?_⟩
  rw [string_data_append, string_data_append]

end StringHelpers

section SortRelations

/-- Lexicographic order on pairs of strings: how Python sorts a set of
2-tuples. -/
def pairLe : String × String → String × String → Prop :=
  fun a b => a.1 < b.1 ∨ (a.1 = b.1 ∧ a.2 ≤ b.2)

instance : DecidableRel pairLe :=
  fun a b => inferInstanceAs (Decidable (a.1 < b.1 ∨ (a.1 = b.1 ∧ a.2 ≤ b.2)))

theorem pairLe_trans {a b c : String × String} (hab : pairLe a b) (hbc : pairLe b c) :
    pairLe a c := by
  rcases hab with h1 | ⟨h1, h1'⟩ <;> rcases hbc with h2 | ⟨h2, h2'⟩
  · exact Or.inl (lt_trans h1 h2)
  · exact Or.inl (h2 ▸ h1)
  · exact Or.inl (h1 ▸ h2)
  · exact Or.inr ⟨h1.trans h2, le_trans h1' h2'⟩

theorem pairLe_total (a b : String × String) : pairLe a b ∨ pairLe b a := by
  rcases lt_trichotomy a.1 b.1 with h | h | h
  · exact Or.inl (Or.inl h)
  · rcases le_total a.2 b.2 with h2 | h2
    · exact Or.inl (Or.inr ⟨h, h2⟩)
    · exact Or.inr (Or.inr ⟨h.symm, h2⟩)
  · exact Or.inr (Or.inl h)

instance : IsTrans (String × String) pairLe := ⟨fun _ _ _ => pairLe_trans⟩

instance : IsTotal (String × String) pairLe := ⟨pairLe_total⟩

/-- Lexicographic order on triples of strings: how Python sorts a set of
3-tuples. -/
def tripLe : String × String × String → String × String × String → Prop :=
  fun a b => a.1 < b.1 ∨ (a.1 = b.1 ∧ pairLe a.2 b.2)

instance : DecidableRel tripLe :=
  fun a b => inferInstanceAs (Decidable (a.1 < b.1 ∨ (a.1 = b.1 ∧ pairLe a.2 b.2)))

theorem tripLe_trans {a b c : String × String × String} (hab : tripLe a b)
    (hbc : tripLe b c) : tripLe a c := by
  rcases hab with h1 | ⟨h1, h1'⟩ <;> rcases hbc with h2 | ⟨h2, h2'⟩
  · exact Or.inl (lt_trans h1 h2)
  · exact Or.inl (h2 ▸ h1)
  · exact Or.inl (h1 ▸ h2)
  · exact Or.inr ⟨h1.trans h2, pairLe_trans h1' h2'⟩

theorem tripLe_total (a b : String × String × String) : tripLe a b ∨ tripLe b a := by
  rcases lt_trichotomy a.1 b.1 with h | h | h
  · exact Or.inl (Or.inl h)
  · rcases pairLe_total a.2 b.2 with h2 | h2
    · exact Or.inl (Or.inr ⟨h, h2⟩)
    · exact Or.inr (Or.inr ⟨h.symm, h2⟩)
  · exact Or.inr (Or.inl h)

instance : IsTrans (String × String × String) tripLe := ⟨fun _ _ _ => tripLe_trans⟩

instance : IsTotal (String × String × String) tripLe := ⟨tripLe_total⟩

end SortRelations

section DataModel

/-- The read/write target lists of one object kind of a role's privileges
mapping. An access level key that is absent from the Python dict is `none`
(key presence matters: the in-place `+=` at privileges.py line 64 only
changes the spec when the read key is present). -/
structure AccessLists where
  read : Option (List String) := none
  write : Option (List String) := none
deriving DecidableEq

/-- One role's configuration in the specification. An absent dict key is
modelled by the empty/none default. `has_personal_schema` and `is_superuser`
are boolean-like in the spec; common.parse_bool (not under src/) is modelled
away by storing plain booleans. -/
structure RoleConfig where
  member_of : List String := []
  has_personal_schema : Bool := false
  is_superuser : Bool := false
  owns_schemas : List String := []
  privileges : List (String × AccessLists) := []
deriving DecidableEq

/-- The specification: an ordered mapping from role name to configuration
(`none` models a role with an empty/absent configuration). -/
abbrev Spec := List (String × Option RoleConfig)

/-- Modelled from the spec: `DBObject` of pgbedrock.context (not under src/).
Per section 6 of the spec, an object is identified by its schema and an
optional object name (`none` meaning the schema itself). -/
structure DBObject where
  schema : String
  object_name : Option String
deriving DecidableEq

/-- Modelled from the spec: the qualified name `schema.object` of a
privilege target (section 3 of the spec); a schema by itself is named by the
schema name. -/
def DBObject.qualified_name (dbo : DBObject) : String :=
  match dbo.object_name with
  | some n => dbo.schema ++ "." ++ n
  | none => dbo.schema

/-- Modelled from the spec: the global object-ownership map of the snapshot
accessor, keyed by object kind and schema; each recorded object carries its
owner role (get_all_object_attributes in pgbedrock.context, not under
src/). -/
abbrev ObjectAttrs := List (String × List (String × List (DBObject × String)))

/-- Python all_object_attrs.get(objkind, dict()).get(schema, dict()). -/
def attrsGet (attrs : ObjectAttrs) (objkind schema : String) : List (DBObject × String) :=
  (List.lookup schema ((List.lookup objkind attrs).getD [])).getD []

/-- Modelled from the spec: the snapshot accessor contract of section 6
(DatabaseContext of pgbedrock.context, not under src/): superuser predicate,
current non-default grants, current default-privilege entitlements, and the
object-ownership map, all read once up front. -/
structure DatabaseContext where
  superusers : List String
  role_current_defaults : String → String → String → List (String × String × String)
  role_current_nondefaults : String → String → String → List (DBObject × String)
  all_object_attrs : ObjectAttrs

/-- The fatal failures the analysis can raise. common.fail (not under src/)
aborts the run with a message; a Python KeyError on a missing dict key is
the keyError constructor. -/
inductive PrivError where
  | personalSchemasError (rolename object_kind access : String)
  | objectDoesNotExist (objkind_singular item rolename : String)
  | keyError (key : String)
deriving DecidableEq

/-- The message text each fatal error carries (PERSONAL_SCHEMAS_ERROR_MSG
and OBJECT_DOES_NOT_EXIST_ERROR_MSG from privileges.py, with the format
slots filled exactly as the source fills them). -/
def PrivError.message : PrivError → String
  | .personalSchemasError r k a =>
      "Unable to interpret reserved keyword 'personal_schemas' for rolename '"
        ++ r ++ "', object_kind '" ++ k ++ "', access '" ++ a ++ "'"
  | .objectDoesNotExist k i r =>
      k ++ " '" ++ i ++ "' requested for role \"" ++ r ++ "\" does not exist"
  | .keyError k => "KeyError: '" ++ k ++ "'"

def exceptIsOk {ε α : Type} : Except ε α → Bool
  | Except.ok _ => true
  | Except.error _ => false

deriving instance DecidableEq for Except

/-- SKIP_SUPERUSER_PRIVILEGE_CONFIGURATION_MSG from privileges.py. -/
def SKIP_SUPERUSER_PRIVILEGE_CONFIGURATION_MSG (rolename : String) : String :=
  "-- Skipping privilege configuration for superuser \"" ++ rolename ++ "\""

/-- OBJECTS_WITH_DEFAULTS from privileges.py. -/
def OBJECTS_WITH_DEFAULTS : List String :=
  ["functions", "tables", "sequences", "types"]

/-- The per-access privilege verbs of one object kind. -/
structure AccessVerbs where
  read : List String
  write : List String
deriving DecidableEq

/-- Modelled from the spec: PRIVILEGE_MAP of pgbedrock.context (not under
src/), the static object-kind to access-level to privilege-verb mapping.
Section 3 gives the kinds (schemas, tables, sequences, functions, types) and
the read SELECT/USAGE pattern; section 6 gives the tables row verbatim; the
remaining verb lists are chosen consistently with those examples. The
claim theorems below do not depend on the particular verbs, only the
witnesses evaluate them. -/
def PRIVILEGE_MAP : List (String × AccessVerbs) :=
  [("schemas", ⟨["USAGE"], ["CREATE"]⟩),
   ("tables", ⟨["SELECT"], ["INSERT", "UPDATE", "DELETE", "TRUNCATE", "REFERENCES", "TRIGGER"]⟩),
   ("sequences", ⟨["SELECT"], ["USAGE", "UPDATE"]⟩),
   ("functions", ⟨["EXECUTE"], []⟩),
   ("types", ⟨["USAGE"], []⟩)]

/-- PRIVILEGE_MAP[object_kind][access]; a missing key is a Python
KeyError. -/
def privilegeMapGet (object_kind access : String) : Except PrivError (List String) :=
  match List.lookup object_kind PRIVILEGE_MAP with
  | none => Except.error (.keyError object_kind)
  | some verbs =>
    if access = "read" then Except.ok verbs.read
    else if access = "write" then Except.ok verbs.write
    else Except.error (.keyError access)

/-- Modelled from the spec: common.check_name (not under src/) validates a
role name; the spec does not describe any transformation, so it is the
identity here. -/
def check_name (rolename : String) : String := rolename

/-- Modelled from the spec: common.ensure_quoted_identifier (not under
src/); the spec does not describe identifier quoting, so it is the identity
here. -/
def ensure_quoted_identifier (item : String) : String := item

end DataModel

section SpecGraphResolver

/-- get_members from privileges.py, with an explicit fuel bound on the
recursion depth. The source recursion has no visited set; `none` models
that the recursion exceeds the given depth (for an acyclic membership graph
a depth of spec.length + 1 always suffices, so `none` at that fuel means
the Python original recurses forever). -/
def get_members_fuel : Nat → String → Spec → Option (List String)
  | 0, _, _ => none
  | fuel + 1, group, spec =>
    spec.foldlM
      (fun members rc =>
        if (match rc.2 with
            | some c => decide (group ∈ c.member_of)
            | none => false) then do
          let sub ← get_members_fuel fuel rc.1 spec
          some (setUnion (setInsert members rc.1) sub)
        else some members)
      []

/-- get_members at the fuel that suffices for every acyclic spec. -/
def get_members (group : String) (spec : Spec) : Option (List String) :=
  get_members_fuel (spec.length + 1) group spec

/-- determine_role_members from privileges.py. -/
def determine_role_members (spec : Spec) : Option (List (String × List String)) :=
  spec.mapM (fun rc => (get_members rc.1 spec).map (fun m => (rc.1, m)))

/-- The loop body of determine_personal_schemas: add the role when its
configuration is present and has_personal_schema is set. -/
def personal_step (acc : List String) (rc : String × Option RoleConfig) : List String :=
  match rc.2 with
  | some c => if c.has_personal_schema then setInsert acc rc.1 else acc
  | none => acc

/-- determine_personal_schemas from privileges.py. -/
def determine_personal_schemas (spec : Spec) : List String :=
  spec.foldl personal_step []

/-- Python dict assignment d[k] = v on an association list: overwrite in
place if the key exists, append otherwise. -/
def upsert (m : List (String × String)) (k v : String) : List (String × String) :=
  if m.any (fun p => p.1 == k) then
    m.map (fun p => if p.1 == k then (k, v) else p)
  else m ++ [(k, v)]

/-- The loop body of determine_schema_owners: record the role as owner of
each schema it owns, then of its personal schema when it has one. -/
def owners_step (owners : List (String × String)) (rc : String × Option RoleConfig) :
    List (String × String) :=
  match rc.2 with
  | none => owners
  | some c =>
    let owners := c.owns_schemas.foldl (fun o schema => upsert o schema rc.1) owners
    if c.has_personal_schema then upsert owners rc.1 rc.1 else owners

/-- determine_schema_owners from privileges.py. -/
def determine_schema_owners (spec : Spec) : List (String × String) :=
  spec.foldl owners_step []

/-- determine_superusers from privileges.py. -/
def determine_superusers (spec : Spec) : List String :=
  spec.foldl
    (fun acc rc =>
      match rc.2 with
      | some c => if c.is_superuser then setInsert acc rc.1 else acc
      | none => acc)
    []

/-- The writable-schema set of one role in determine_schema_writers:
set(config['privileges']['schemas']['write']) with every missing key giving
the empty set, then the personal_schemas sentinel replaced by the concrete
personal-schema set. -/
def writable_schemas_of (personal : List String) (config : Option RoleConfig) : List String :=
  let w := match config with
    | some c => toSet (((List.lookup "schemas" c.privileges).getD ⟨none, none⟩).write.getD [])
    | none => []
  if "personal_schemas" ∈ w then
    setUnion (w.filter (fun s => s != "personal_schemas")) personal
  else w

/-- Overwrite the value stored under one existing key of the writers map. -/
def update_assoc (m : List (String × List String)) (k : String) (v : List String) :
    List (String × List String) :=
  m.map (fun p => if p.1 == k then (k, v) else p)

/-- The inner loop of determine_schema_writers for one role: for each
writable schema, writers[schema].add(role) and
writers[schema].update(members_of_role[role]); a schema missing from the
writers map is a Python KeyError. -/
def add_role_writers (role : String) (members : List String) :
    List String → List (String × List String) → Except PrivError (List (String × List String))
  | [], writers => Except.ok writers
  | schema :: rest, writers =>
    match List.lookup schema writers with
    | none => Except.error (.keyError schema)
    | some cur =>
      add_role_writers role members rest
        (update_assoc writers schema (setUnion (setInsert cur role) members))

/-- The role loop of determine_schema_writers. -/
def add_all_writers (membersOf : List (String × List String)) (personal : List String) :
    Spec → List (String × List String) → Except PrivError (List (String × List String))
  | [], writers => Except.ok writers
  | rc :: rest, writers =>
    match add_role_writers rc.1 ((List.lookup rc.1 membersOf).getD [])
        (writable_schemas_of personal rc.2) writers with
    | Except.error e => Except.error e
    | Except.ok writers' => add_all_writers membersOf personal rest writers'

/-- determine_schema_writers from privileges.py. The outer Option models
the possible non-termination of determine_role_members (get_members has no
cycle guard); the inner Except models the KeyError raised when a written
schema has no entry in the owners-seeded writers map. -/
def determine_schema_writers (spec : Spec) :
    Option (Except PrivError (List (String × List String))) :=
  match determine_role_members spec with
  | none => none
  | some membersOf =>
    let personal := determine_personal_schemas spec
    let owners := determine_schema_owners spec
    let writers0 := owners.map (fun p => (p.1, [p.2]))
    some
      (match add_all_writers membersOf personal spec writers0 with
       | Except.error e => Except.error e
       | Except.ok writers =>
         Except.ok (writers.map (fun p => (p.1, setUnion p.2 (determine_superusers spec)))))

end SpecGraphResolver

section Analyzer

/-- One PrivilegeAnalyzer instance: the per-(role, object kind, access
level) unit of work. The constructor-computed state of the Python class is
stored as fields; current_nondefaults already carries the qualified-name
image taken in __init__. -/
structure PrivilegeAnalyzer where
  rolename : String
  access : String
  object_kind : String
  desired_items : List String
  schema_writers : List (String × List String)
  personal_schemas : List String
  current_defaults : List (String × String × String)
  current_nondefaults : List (String × String)
  all_object_attrs : ObjectAttrs
deriving DecidableEq

/-- self.default_acl_possible. -/
def PrivilegeAnalyzer.default_acl_possible (pa : PrivilegeAnalyzer) : Bool :=
  decide (pa.object_kind ∈ OBJECTS_WITH_DEFAULTS)

/-- The owner recorded for an item by the ownership map, resolved exactly
as get_object_owner resolves it: split at the first dot, look up the schema
bucket for the object kind, then the DBObject built from the two halves. -/
def object_owner_lookup (attrs : ObjectAttrs) (objkind item : String) : Option String :=
  let schema := (splitFirstDot item).1
  let dbo : DBObject := ⟨schema, (splitFirstDot item).2⟩
  match (attrsGet attrs objkind schema).find? (fun p => p.1 == dbo) with
  | some p => some p.2
  | none => none

/-- get_object_owner from privileges.py (the truthiness test `if owner:`
makes an empty owner string fail as well). -/
def get_object_owner (attrs : ObjectAttrs) (rolename objkind item : String) :
    Except PrivError String :=
  match object_owner_lookup attrs objkind item with
  | some owner =>
    if owner = "" then
      Except.error (.objectDoesNotExist (strDropLast objkind) item rolename)
    else Except.ok owner
  | none => Except.error (.objectDoesNotExist (strDropLast objkind) item rolename)

/-- get_schema_objects from privileges.py: all objects of the analyzer's
kind in the schema whose recorded owner differs from the analyzed role
(self.all_object_attrs, self.object_kind and self.rolename passed
explicitly). -/
def get_schema_objects (attrs : ObjectAttrs) (object_kind rolename schema : String) :
    List String :=
  toSet (((attrsGet attrs object_kind schema).filter
    (fun p => p.2 != rolename)).map (fun p => p.1.qualified_name))

/-- The item loop of identify_desired_objects, accumulating the
desired-object set and the deferred schema list in source order. -/
def scan_items (rolename object_kind access : String) (personal : List String)
    (attrs : ObjectAttrs) :
    List String → List String × List String → Except PrivError (List String × List String)
  | [], acc => Except.ok acc
  | item :: rest, acc =>
    if item = "personal_schemas" then
      if object_kind = "schemas" then
        scan_items rolename object_kind access personal attrs rest
          (setUnion acc.1 personal, acc.2)
      else Except.error (.personalSchemasError rolename object_kind access)
    else if item = "personal_schemas.*" then
      scan_items rolename object_kind access personal attrs rest (acc.1, acc.2 ++ personal)
    else if endsWithDotStar item = false then
      match get_object_owner attrs rolename object_kind (ensure_quoted_identifier item) with
      | Except.error e => Except.error e
      | Except.ok owner =>
        if owner ≠ rolename then
          scan_items rolename object_kind access personal attrs rest
            (setInsert acc.1 (ensure_quoted_identifier item), acc.2)
        else scan_items rolename object_kind access personal attrs rest acc
    else
      scan_items rolename object_kind access personal attrs rest
        (acc.1, acc.2 ++ [strDropLast2 item])

/-- The desired privilege sets identify_desired_objects produces
(self.desired_nondefaults and self.desired_defaults; the latter stays empty
when the object kind has no default ACLs and is then never read). -/
structure DesiredSets where
  desired_nondefaults : List (String × String)
  desired_defaults : List (String × String × String)
deriving DecidableEq

/-- determine_desired_defaults from privileges.py: for every deferred
schema, every writer of that schema other than the analyzed role crossed
with every applicable privilege verb; a schema missing from schema_writers
is a Python KeyError. -/
def determine_desired_defaults (rolename : String)
    (schema_writers : List (String × List String)) (priv_types : List String) :
    List String → List (String × String × String) →
      Except PrivError (List (String × String × String))
  | [], acc => Except.ok acc
  | schema :: rest, acc =>
    match List.lookup schema schema_writers with
    | none => Except.error (.keyError schema)
    | some writers =>
      determine_desired_defaults rolename schema_writers priv_types rest
        (writers.foldl
          (fun acc2 writer =>
            if writer = rolename then acc2
            else priv_types.foldl (fun acc3 pv => setInsert acc3 (writer, schema, pv)) acc2)
          acc)

/-- identify_desired_objects from privileges.py. -/
def PrivilegeAnalyzer.identify_desired_objects (pa : PrivilegeAnalyzer) :
    Except PrivError DesiredSets :=
  match scan_items pa.rolename pa.object_kind pa.access pa.personal_schemas
      pa.all_object_attrs pa.desired_items ([], []) with
  | Except.error e => Except.error e
  | Except.ok os =>
    let objs := os.2.foldl
      (fun acc schema =>
        setUnion acc (get_schema_objects pa.all_object_attrs pa.object_kind pa.rolename schema))
      os.1
    match privilegeMapGet pa.object_kind pa.access with
    | Except.error e => Except.error e
    | Except.ok priv_types =>
      let desired_nondefaults := toSet (listProd objs priv_types)
      if pa.default_acl_possible then
        match determine_desired_defaults pa.rolename pa.schema_writers priv_types os.2 [] with
        | Except.error e => Except.error e
        | Except.ok dd => Except.ok ⟨desired_nondefaults, dd⟩
      else Except.ok ⟨desired_nondefaults, []⟩

/-- Q_GRANT_NONDEFAULT with its slots filled. -/
def Q_GRANT_NONDEFAULT (priv objkind_singular objname rolename : String) : String :=
  "GRANT " ++ priv ++ " ON " ++ objkind_singular ++ " " ++ objname ++ " TO \"" ++ rolename ++ "\";"

/-- Q_REVOKE_NONDEFAULT with its slots filled. -/
def Q_REVOKE_NONDEFAULT (priv objkind_singular objname rolename : String) : String :=
  "REVOKE " ++ priv ++ " ON " ++ objkind_singular ++ " " ++ objname ++ " FROM \"" ++ rolename ++ "\";"

/-- Q_GRANT_DEFAULT with its slots filled. -/
def Q_GRANT_DEFAULT (grantor schema priv objkind_upper rolename : String) : String :=
  "\n    SET ROLE \"" ++ grantor ++ "\";\n    ALTER DEFAULT PRIVILEGES IN SCHEMA "
    ++ schema ++ " GRANT " ++ priv ++ " ON " ++ objkind_upper ++ " TO \"" ++ rolename
    ++ "\";\n    RESET ROLE;\n    "

/-- Q_REVOKE_DEFAULT with its slots filled. -/
def Q_REVOKE_DEFAULT (grantor schema priv objkind_upper rolename : String) : String :=
  "\n    SET ROLE \"" ++ grantor ++ "\";\n    ALTER DEFAULT PRIVILEGES IN SCHEMA "
    ++ schema ++ " REVOKE " ++ priv ++ " ON " ++ objkind_upper ++ " FROM \"" ++ rolename
    ++ "\";\n    RESET ROLE;\n    "

/-- grant_nondefault from privileges.py, on one (objname, privilege) pair. -/
def PrivilegeAnalyzer.grant_nondefault (pa : PrivilegeAnalyzer) (p : String × String) :
    String :=
  Q_GRANT_NONDEFAULT p.2 (strDropLast (strUpper pa.object_kind)) p.1 pa.rolename

/-- revoke_nondefault from privileges.py. -/
def PrivilegeAnalyzer.revoke_nondefault (pa : PrivilegeAnalyzer) (p : String × String) :
    String :=
  Q_REVOKE_NONDEFAULT p.2 (strDropLast (strUpper pa.object_kind)) p.1 pa.rolename

/-- grant_default from privileges.py, on one (grantor, schema, privilege)
triple. -/
def PrivilegeAnalyzer.grant_default (pa : PrivilegeAnalyzer) (t : String × String × String) :
    String :=
  Q_GRANT_DEFAULT t.1 t.2.1 t.2.2 (strUpper pa.object_kind) pa.rolename

/-- revoke_default from privileges.py. -/
def PrivilegeAnalyzer.revoke_default (pa : PrivilegeAnalyzer) (t : String × String × String) :
    String :=
  Q_REVOKE_DEFAULT t.1 t.2.1 t.2.2 (strUpper pa.object_kind) pa.rolename

/-- analyze_nondefaults from privileges.py: set-difference both ways,
sort, and emit grants then revokes. -/
def PrivilegeAnalyzer.analyze_nondefaults (pa : PrivilegeAnalyzer)
    (desired_nondefaults : List (String × String)) : List String :=
  (List.insertionSort pairLe (setDiff desired_nondefaults pa.current_nondefaults)).map
      pa.grant_nondefault
    ++ (List.insertionSort pairLe (setDiff pa.current_nondefaults desired_nondefaults)).map
      pa.revoke_nondefault

/-- analyze_defaults from privileges.py. -/
def PrivilegeAnalyzer.analyze_defaults (pa : PrivilegeAnalyzer)
    (desired_defaults : List (String × String × String)) : List String :=
  (List.insertionSort tripLe (setDiff desired_defaults pa.current_defaults)).map
      pa.grant_default
    ++ (List.insertionSort tripLe (setDiff pa.current_defaults desired_defaults)).map
      pa.revoke_default

/-- analyze from privileges.py: identify the desired sets, then emit the
non-default statements and, when the object kind has default ACLs, the
default statements, in that order. -/
def PrivilegeAnalyzer.analyze (pa : PrivilegeAnalyzer) : Except PrivError (List String) :=
  match pa.identify_desired_objects with
  | Except.error e => Except.error e
  | Except.ok ds =>
    Except.ok
      (pa.analyze_nondefaults ds.desired_nondefaults
        ++ (if pa.default_acl_possible then pa.analyze_defaults ds.desired_defaults else []))

end Analyzer

section Orchestrator

/-- The desired-items list analyze_privileges passes to one analyzer:
desired_items_this_obj.get(access, []), with the write items folded in when
the access level is read (privileges.py lines 61-64). -/
def items_for (config : Option RoleConfig) (object_kind access : String) : List String :=
  let d := match config with
    | some c => (List.lookup object_kind c.privileges).getD ⟨none, none⟩
    | none => ⟨none, none⟩
  let items := (match access with
    | "read" => d.read
    | "write" => d.write
    | _ => none).getD []
  if access = "read" then items ++ d.write.getD [] else items

/-- Construction of one PrivilegeAnalyzer by analyze_privileges: the
__init__ of the Python class, reading the current state once from the
snapshot (current non-defaults are mapped to qualified names there). -/
def analyzer_for (db : DatabaseContext) (schema_writers : List (String × List String))
    (personal : List String) (rolename object_kind access : String) (items : List String) :
    PrivilegeAnalyzer :=
  { rolename := check_name rolename
    access := access
    object_kind := object_kind
    desired_items := items
    schema_writers := schema_writers
    personal_schemas := personal
    current_defaults := toSet (db.role_current_defaults rolename object_kind access)
    current_nondefaults :=
      toSet ((db.role_current_nondefaults rolename object_kind access).map
        (fun p => (p.1.qualified_name, p.2)))
    all_object_attrs := db.all_object_attrs }

/-- The two access-level analyzer runs of one (role, object kind) pair in
analyze_privileges' inner loop. -/
def process_kind (db : DatabaseContext) (schema_writers : List (String × List String))
    (personal : List String) (rolename : String) (config : Option RoleConfig)
    (object_kind : String) : Except PrivError (List String) :=
  match (analyzer_for db schema_writers personal rolename object_kind "read"
      (items_for config object_kind "read")).analyze with
  | Except.error e => Except.error e
  | Except.ok sql_read =>
    match (analyzer_for db schema_writers personal rolename object_kind "write"
        (items_for config object_kind "write")).analyze with
    | Except.error e => Except.error e
    | Except.ok sql_write => Except.ok (sql_read ++ sql_write)

/-- The observable effect on the specification of the in-place
`desired_items += desired_items_this_obj.get('write', [])` at
privileges.py line 64: for every object kind iterated by the loop whose
read key is present, the spec's read list is extended by the write items.
(When the read key is absent, `.get` returns a fresh list and the mutation
is invisible.) -/
def mutate_config (config : Option RoleConfig) : Option RoleConfig :=
  match config with
  | none => none
  | some c =>
    some { c with
      privileges := c.privileges.map (fun p =>
        if (List.lookup p.1 PRIVILEGE_MAP).isSome then
          (p.1,
            { p.2 with
              read := match p.2.read with
                | some rd => some (rd ++ p.2.write.getD [])
                | none => none })
        else p) }

/-- Fail-fast traversal (used for the loops of analyze_privileges, whose
first fatal error aborts the whole run). -/
def exMapM {ε α β : Type} (f : α → Except ε β) : List α → Except ε (List β)
  | [] => Except.ok []
  | x :: xs =>
    match f x with
    | Except.error e => Except.error e
    | Except.ok y =>
      match exMapM f xs with
      | Except.error e => Except.error e
      | Except.ok ys => Except.ok (y :: ys)

/-- One role's processing in analyze_privileges: superusers get the skip
message and no analysis; other roles run one analyzer per object kind and
access level. The second component returns the role's spec entry as it
stands after the run (see mutate_config). -/
def process_role (db : DatabaseContext) (schema_writers : List (String × List String))
    (personal : List String) (rc : String × Option RoleConfig) :
    Except PrivError (List String × (String × Option RoleConfig)) :=
  if rc.1 ∈ db.superusers then
    Except.ok ([SKIP_SUPERUSER_PRIVILEGE_CONFIGURATION_MSG rc.1], rc)
  else
    match exMapM (fun kv => process_kind db schema_writers personal rc.1 rc.2 kv.1)
        PRIVILEGE_MAP with
    | Except.error e => Except.error e
    | Except.ok parts => Except.ok (parts.foldl (fun a b => a ++ b) [], (rc.1, mutate_config rc.2))

/-- analyze_privileges from privileges.py (progress bar and logging
dropped): resolve schema writers and personal schemas once, then run every
role. Returns the statement list and the specification as it stands after
the run; the outer Option models non-termination inside
determine_role_members, the Except a fatal abort. -/
def analyze_privileges (spec : Spec) (db : DatabaseContext) :
    Option (Except PrivError (List String × Spec)) :=
  match determine_schema_writers spec with
  | none => none
  | some (Except.error e) => some (Except.error e)
  | some (Except.ok schema_writers) =>
    let personal := determine_personal_schemas spec
    some
      (match exMapM (process_role db schema_writers personal) spec with
       | Except.error e => Except.error e
       | Except.ok results =>
         Except.ok
           (results.foldl (fun acc r => acc ++ r.1) [], results.map (fun r => r.2)))

/-- The specification analyze_privileges leaves behind, when the run
succeeds. -/
def spec_after (spec : Spec) (db : DatabaseContext) : Option Spec :=
  match analyze_privileges spec db with
  | some (Except.ok out) => some out.2
  | _ => none

end Orchestrator

section AppliedSnapshot

/-- Semantics of executing the emitted non-default statements against one
(role, object kind, access) slot of the snapshot: every REVOKE removes the
matching (qualified name, privilege) pairs, every GRANT adds the object the
statement names (the database resolves the qualified name back to schema
and object at the first dot). -/
def apply_nondefault_statements (cur : List (DBObject × String))
    (grants revokes : List (String × String)) : List (DBObject × String) :=
  cur.filter (fun p => decide ((p.1.qualified_name, p.2) ∉ revokes))
    ++ grants.map (fun g => (⟨(splitFirstDot g.1).1, (splitFirstDot g.1).2⟩, g.2))

/-- Semantics of executing the emitted default-privilege statements against
one snapshot slot. -/
def apply_default_statements (cur : List (String × String × String))
    (grants revokes : List (String × String × String)) : List (String × String × String) :=
  cur.filter (fun t => decide (t ∉ revokes)) ++ grants

/-- The snapshot after executing every statement analyze_privileges emitted
for spec against db: each analyzed (non-superuser role, object kind, access)
slot has its grant diff applied and its revoke diff removed; everything
else—superuser slots, roles outside the spec, slots whose analysis failed,
the ownership map—stays as it was (grant/revoke statements change no
ownership). Default-privilege slots change only for object kinds that have
default ACLs, since only those emit default statements. -/
def applied_db (spec : Spec) (db : DatabaseContext) : DatabaseContext :=
  match determine_schema_writers spec with
  | some (Except.ok sw) =>
    let personal := determine_personal_schemas spec
    { db with
      role_current_nondefaults := fun r k a =>
        if r ∈ db.superusers then db.role_current_nondefaults r k a
        else
          match List.lookup r spec with
          | none => db.role_current_nondefaults r k a
          | some config =>
            let pa := analyzer_for db sw personal r k a (items_for config k a)
            match pa.identify_desired_objects with
            | Except.ok ds =>
              apply_nondefault_statements (db.role_current_nondefaults r k a)
                (setDiff ds.desired_nondefaults pa.current_nondefaults)
                (setDiff pa.current_nondefaults ds.desired_nondefaults)
            | Except.error _ => db.role_current_nondefaults r k a
      role_current_defaults := fun r k a =>
        if r ∈ db.superusers then db.role_current_defaults r k a
        else
          match List.lookup r spec with
          | none => db.role_current_defaults r k a
          | some config =>
            let pa := analyzer_for db sw personal r k a (items_for config k a)
            if pa.default_acl_possible then
              match pa.identify_desired_objects with
              | Except.ok ds =>
                apply_default_statements (db.role_current_defaults r k a)
                  (setDiff ds.desired_defaults pa.current_defaults)
                  (setDiff pa.current_defaults ds.desired_defaults)
              | Except.error _ => db.role_current_defaults r k a
            else db.role_current_defaults r k a }
  | _ => db

end AppliedSnapshot

section HelperLemmas

theorem string_append_assoc (a b c : String) : (a ++ b) ++ c = a ++ (b ++ c) := by
  apply string_ext
  simp [string_data_append]

theorem strHasSubstr_of_eq (s x m y : String) (h : s = x ++ m ++ y) : strHasSubstr s m := by
  subst h
  exact strHasSubstr_middle x m y

theorem lookup_mem {β : Type} (l : List (String × β)) (k : String) (v : β)
    (h : List.lookup k l = some v) : (k, v) ∈ l := by
  induction l with
  | nil => cases h
  | cons p rest ih =>
    rw [List.lookup] at h
    cases hk : (k == p.1) with
    | true =>
      rw [hk] at h
      cases h
      have : k = p.1 := eq_of_beq hk
      subst this
      exact List.mem_cons_self _ _
    | false =>
      rw [hk] at h
      exact List.mem_cons_of_mem _ (ih h)

theorem lookup_of_mem_nodup {β : Type} (l : List (String × β)) (k : String) (v : β)
    (hnd : (l.map Prod.fst).Nodup) (h : (k, v) ∈ l) : List.lookup k l = some v := by
  induction l with
  | nil => cases h
  | cons p rest ih =>
    rw [List.map_cons, List.nodup_cons] at hnd
    rcases List.mem_cons.mp h with heq | hmem
    · cases heq
      rw [List.lookup]
      simp
    · have hk : k ≠ p.1 := by
        intro hq
        exact hnd.1 (hq ▸ (List.mem_map.mpr ⟨(k, v), hmem, rfl⟩))
      rw [List.lookup]
      have : (k == p.1) = false := beq_eq_false_iff_ne.mpr hk
      rw [this]
      exact ih hnd.2 hmem

theorem find?_key_of_mem_nodup {β : Type} [DecidableEq β] (l : List (DBObject × β))
    (k : DBObject) (v : β) (hnd : (l.map Prod.fst).Nodup) (h : (k, v) ∈ l) :
    l.find? (fun p => p.1 == k) = some (k, v) := by
  induction l with
  | nil => cases h
  | cons p rest ih =>
    rw [List.map_cons, List.nodup_cons] at hnd
    rcases List.mem_cons.mp h with heq | hmem
    · cases heq
      rw [List.find?]
      simp
    · have hk : p.1 ≠ k := by
        intro hq
        exact hnd.1 (hq ▸ (List.mem_map.mpr ⟨(k, v), hmem, rfl⟩))
      rw [List.find?]
      have : (p.1 == k) = false := beq_eq_false_iff_ne.mpr hk
      rw [this]
      exact ih hnd.2 hmem

theorem exMapM_ok_forall {ε α β : Type} (f : α → Except ε β) (l : List α) (ys : List β)
    (h : exMapM f l = Except.ok ys) : ∀ x ∈ l, ∃ y, f x = Except.ok y := by
  induction l generalizing ys with
  | nil => intro x hx; cases hx
  | cons a rest ih =>
    intro x hx
    rw [exMapM] at h
    cases hf : f a with
    | error e => rw [hf] at h; cases h
    | ok y =>
      rw [hf] at h
      cases hr : exMapM f rest with
      | error e => rw [hr] at h; cases h
      | ok ys' =>
        rcases List.mem_cons.mp hx with rfl | hx'
        · exact ⟨y, hf⟩
        · exact ih ys' hr x hx'

theorem exMapM_map {ε α β : Type} (f : α → Except ε β) (g : α → β) (l : List α)
    (h : ∀ x ∈ l, f x = Except.ok (g x)) : exMapM f l = Except.ok (l.map g) := by
  induction l with
  | nil => rfl
  | cons a rest ih =>
    rw [exMapM, h a (List.mem_cons_self _ _),
      ih fun x hx => h x (List.mem_cons_of_mem a hx)]
    rfl

theorem mem_foldl_append {α β : Type} (f : β → List α) (l : List β) (acc : List α) (x : α) :
    x ∈ l.foldl (fun a b => a ++ f b) acc ↔ x ∈ acc ∨ ∃ b ∈ l, x ∈ f b := by
  induction l generalizing acc with
  | nil => simp
  | cons b rest ih =>
    rw [List.foldl_cons, ih]
    simp [List.mem_append]
    tauto

end HelperLemmas

section ClaimC1

/-- The membership cycle named by claim C1: role A lists B in member_of and
role B lists A. -/
def cyc_spec : Spec :=
  [("A", some { member_of := ["B"] }), ("B", some { member_of := ["A"] })]

/-- Claim C1: the claim states that get_members terminates on a membership
cycle and in particular terminates for both roles of the two-role cycle
A-B. The code has no visited-set guard, so on that spec the recursion
descends forever: no recursion depth (fuel) whatsoever is enough for either
role. This theorem evaluates the code at the failing input and shows the
non-termination witness: get_members_fuel returns none for every fuel, in
particular at the depth spec.length + 1 that suffices for every acyclic
spec (so get_members itself returns none, the embedding's image of the
Python RecursionError). -/
theorem claim_c1_get_members_cycle_diverges :
    (∀ fuel, get_members_fuel fuel "A" cyc_spec = none ∧
      get_members_fuel fuel "B" cyc_spec = none) ∧
    get_members "A" cyc_spec = none ∧ get_members "B" cyc_spec = none := by
  have main : ∀ fuel, get_members_fuel fuel "A" cyc_spec = none ∧
      get_members_fuel fuel "B" cyc_spec = none := by
    intro fuel
    induction fuel with
    | zero => exact ⟨rfl, rfl⟩
    | succ n ih =>
      have hA : get_members_fuel n "A"
          ([("A", some { member_of := ["B"] }), ("B", some { member_of := ["A"] })] : Spec) =
          none := ih.1
      have hB : get_members_fuel n "B"
          ([("A", some { member_of := ["B"] }), ("B", some { member_of := ["A"] })] : Spec) =
          none := ih.2
      constructor
      · show get_members_fuel (n + 1) "A" cyc_spec = none
        simp only [get_members_fuel, cyc_spec, List.foldlM]
        simp [hB]
      · show get_members_fuel (n + 1) "B" cyc_spec = none
        simp only [get_members_fuel, cyc_spec, List.foldlM]
        simp [hA]
  exact ⟨main, (main _).1, (main _).2⟩

end ClaimC1

section ClaimC3

/-- The snapshot for the claim C3 run: no superusers, empty current
privileges, two tables in schema s owned by bob. -/
def db_c3 : DatabaseContext :=
  { superusers := []
    role_current_defaults := fun _ _ _ => []
    role_current_nondefaults := fun _ _ _ => []
    all_object_attrs :=
      [("tables", [("s", [(⟨"s", some "a"⟩, "bob"), (⟨"s", some "b"⟩, "bob")])])] }

/-- The specification before the claim C3 run: alice wants read on s.a and
write on s.b. -/
def spec_c3 : Spec :=
  [("alice", some { privileges := [("tables", { read := some ["s.a"], write := some ["s.b"] })] })]

/-- What the specification mapping looks like after the run: the in-place
`desired_items += desired_items_this_obj.get('write', [])` of
privileges.py line 64 has appended the write item to alice's tables read
list. -/
def spec_c3_after : Spec :=
  [("alice",
    some { privileges := [("tables", { read := some ["s.a", "s.b"], write := some ["s.b"] })] })]

/-- Claim C3: the claim states analyze_privileges never mutates its inputs
and that the specification mapping is identical before and after the run.
The code contradicts it: `desired_items = desired_items_this_obj.get(access, [])`
binds the spec's own read list and `desired_items += ...` extends that list
in place, so after a successful run the read list of every analyzed object
kind contains the write items. This theorem evaluates the code at the
failing input: the run succeeds and leaves behind a specification different
from the input one. -/
theorem claim_c3_analyze_privileges_mutates_spec :
    spec_after spec_c3 db_c3 = some spec_c3_after ∧ spec_c3_after ≠ spec_c3 :=
  ⟨by decide, by decide⟩

end ClaimC3

section ClaimC4

/-- A claim C4 analyzer run that fails with the unknown-object error:
alice requests read on ghost.tbl for object kind tables, but the ownership
snapshot records nothing. -/
def pa_c4 : PrivilegeAnalyzer :=
  { rolename := "alice", access := "read", object_kind := "tables"
    desired_items := ["ghost.tbl"], schema_writers := [], personal_schemas := []
    current_defaults := [], current_nondefaults := [], all_object_attrs := [] }

/-- Claim C4 counterexample: the claim states every fatal error carries the
role name, the object kind and the access level. The unknown-object error
raised by get_object_owner is formatted with the singular object kind, the
item and the role name only: the concrete read-level run below fails with a
message that does not contain its access level "read" anywhere (nor the
object kind "tables" as given — only the singular "table"). -/
theorem claim_c4_counterexample :
    pa_c4.analyze =
      Except.error (PrivError.objectDoesNotExist "table" "ghost.tbl" "alice") ∧
    pa_c4.access = "read" ∧ pa_c4.object_kind = "tables" ∧
    ¬ strHasSubstr
      (PrivError.message (PrivError.objectDoesNotExist "table" "ghost.tbl" "alice")) "read" ∧
    ¬ strHasSubstr
      (PrivError.message (PrivError.objectDoesNotExist "table" "ghost.tbl" "alice")) "tables" :=
  ⟨by decide, rfl, rfl, by decide, by decide⟩

/-- Claim C4 (amended): the impossible-keyword error message carries the
role name, the object kind and the access level that triggered it; the
unknown-object error message carries the singular object kind, the item and
the role name — but not the access level (see the counterexample). -/
theorem claim_c4_amended_error_messages : ∀ r k a ks itm rr : String,
    strHasSubstr (PrivError.message (PrivError.personalSchemasError r k a)) r ∧
    strHasSubstr (PrivError.message (PrivError.personalSchemasError r k a)) k ∧
    strHasSubstr (PrivError.message (PrivError.personalSchemasError r k a)) a ∧
    strHasSubstr (PrivError.message (PrivError.objectDoesNotExist ks itm rr)) ks ∧
    strHasSubstr (PrivError.message (PrivError.objectDoesNotExist ks itm rr)) itm ∧
    strHasSubstr (PrivError.message (PrivError.objectDoesNotExist ks itm rr)) rr := by
  intro r k a ks itm rr
  refine ⟨?_, ?_, ?_, ?_, ?_, ?_⟩
  · apply strHasSubstr_of_eq _
      "Unable to interpret reserved keyword 'personal_schemas' for rolename '" r
      ("', object_kind '" ++ k ++ "', access '" ++ a ++ "'")
    apply string_ext
    simp [PrivError.message, string_data_append]
  · apply strHasSubstr_of_eq _
      ("Unable to interpret reserved keyword 'personal_schemas' for rolename '"
        ++ r ++ "', object_kind '") k ("', access '" ++ a ++ "'")
    apply string_ext
    simp [PrivError.message, string_data_append]
  · apply strHasSubstr_of_eq _
      ("Unable to interpret reserved keyword 'personal_schemas' for rolename '"
        ++ r ++ "', object_kind '" ++ k ++ "', access '") a "'"
    apply string_ext
    simp [PrivError.message, string_data_append]
  · apply strHasSubstr_of_eq _ "" ks
      (" '" ++ itm ++ "' requested for role \"" ++ rr ++ "\" does not exist")
    apply string_ext
    simp [PrivError.message, string_data_append]
  · apply strHasSubstr_of_eq _ (ks ++ " '") itm
      ("' requested for role \"" ++ rr ++ "\" does not exist")
    apply string_ext
    simp [PrivError.message, string_data_append]
  · apply strHasSubstr_of_eq _ (ks ++ " '" ++ itm ++ "' requested for role \"") rr
      "\" does not exist"
    apply string_ext
    simp [PrivError.message, string_data_append]

end ClaimC4

section ClaimC7

/-- The spec's read list of one role and object kind, stated the way claim
C7 states it (the refinement-side definition: the list under the read key,
empty when absent). -/
def spec_read_items (config : Option RoleConfig) (object_kind : String) : List String :=
  match config with
  | some c => ((List.lookup object_kind c.privileges).getD ⟨none, none⟩).read.getD []
  | none => []

/-- The spec's write list of one role and object kind (refinement-side). -/
def spec_write_items (config : Option RoleConfig) (object_kind : String) : List String :=
  match config with
  | some c => ((List.lookup object_kind c.privileges).getD ⟨none, none⟩).write.getD []
  | none => []

/-- Claim C7: for every role and object kind, the desired-items list passed
to the read-access PrivilegeAnalyzer equals the spec's read list extended
with every item of the spec's write list (so every write-level target is
also analyzed at read level), while the write-access analyzer receives
exactly the write list; consequently every write item is among the
read-analyzer's items, and the per-kind processing of analyze_privileges is
exactly the two analyzer runs on those lists. -/
theorem claim_c7_write_folded_into_read :
    ∀ (config : Option RoleConfig) (object_kind : String),
      items_for config object_kind "read" =
        spec_read_items config object_kind ++ spec_write_items config object_kind ∧
      items_for config object_kind "write" = spec_write_items config object_kind ∧
      (∀ itm ∈ spec_write_items config object_kind, itm ∈ items_for config object_kind "read") ∧
      ∀ (db : DatabaseContext) (sw : List (String × List String)) (personal : List String)
        (rolename : String),
        process_kind db sw personal rolename config object_kind =
          match (analyzer_for db sw personal rolename object_kind "read"
              (spec_read_items config object_kind
                ++ spec_write_items config object_kind)).analyze with
          | Except.error e => Except.error e
          | Except.ok sql_read =>
            match (analyzer_for db sw personal rolename object_kind "write"
                (spec_write_items config object_kind)).analyze with
            | Except.error e => Except.error e
            | Except.ok sql_write => Except.ok (sql_read ++ sql_write) := by
  intro config object_kind
  have hread : items_for config object_kind "read" =
      spec_read_items config object_kind ++ spec_write_items config object_kind := by
    cases config <;> rfl
  have hwrite : items_for config object_kind "write" = spec_write_items config object_kind := by
    cases config <;> rfl
  refine ⟨hread, hwrite, ?_, ?_⟩
  · intro itm hi
    rw [hread, List.mem_append]
    exact Or.inr hi
  · intro db sw personal rolename
    rw [process_kind, hread, hwrite]

end ClaimC7

section ClaimC8

/-- Claim C8: whenever determine_schema_writers returns a writer map, every
role flagged is_superuser in the spec belongs to the writer set of every
schema in the map. -/
theorem claim_c8_superusers_in_every_writer_set (spec : Spec)
    (w : List (String × List String))
    (h : determine_schema_writers spec = some (Except.ok w)) :
    ∀ e ∈ w, ∀ u ∈ determine_superusers spec, u ∈ e.2 := by
  intro e he u hu
  unfold determine_schema_writers at h
  cases hm : determine_role_members spec with
  | none => rw [hm] at h; cases h
  | some membersOf =>
    rw [hm] at h
    simp only [] at h
    cases ha : add_all_writers membersOf (determine_personal_schemas spec) spec
        ((determine_schema_owners spec).map (fun p => (p.1, [p.2]))) with
    | error e' => rw [ha] at h; simp at h
    | ok writers =>
      rw [ha] at h
      simp only [Option.some.injEq, Except.ok.injEq] at h
      subst h
      rcases List.mem_map.mp he with ⟨p, _, rfl⟩
      simp only [mem_setUnion]
      exact Or.inr hu

/-- A concrete spec for the claim C8 witness: a superuser, a schema owner,
and a role with an explicit write grant. -/
def spec_c8 : Spec :=
  [("boss", some { is_superuser := true }),
   ("o", some { owns_schemas := ["s1"] }),
   ("w", some { privileges := [("schemas", { write := some ["s1"] })] })]

/-- Witness for claim C8 at a concrete spec. -/
theorem claim_c8_witness :
    determine_schema_writers spec_c8 = some (Except.ok [("s1", ["o", "w", "boss"])]) ∧
    ∀ e ∈ [("s1", ["o", "w", "boss"])], ∀ u ∈ determine_superusers spec_c8, u ∈ e.2 :=
  ⟨by decide,
    claim_c8_superusers_in_every_writer_set spec_c8 [("s1", ["o", "w", "boss"])] (by decide)⟩

end ClaimC8

section ClaimC10

/-- Whether a role configuration lists a schema under owns.schemas. -/
def config_owns (config : Option RoleConfig) (s : String) : Bool :=
  match config with
  | some c => decide (s ∈ c.owns_schemas)
  | none => false

/-- Whether a role configuration sets has_personal_schema. -/
def config_personal (config : Option RoleConfig) : Bool :=
  match config with
  | some c => c.has_personal_schema
  | none => false

/-- The condition of claim C10: every schema named in some role's
privileges.schemas.write list, after expanding the personal_schemas
sentinel, is owned by some role of the spec or is a personal schema. -/
def schemas_write_condition (spec : Spec) : Prop :=
  ∀ rc ∈ spec, ∀ s ∈ writable_schemas_of (determine_personal_schemas spec) rc.2,
    (∃ rc2 ∈ spec, config_owns rc2.2 s = true) ∨ s ∈ determine_personal_schemas spec

theorem map_fst_update_assoc (m : List (String × List String)) (k : String)
    (v : List String) : (update_assoc m k v).map Prod.fst = m.map Prod.fst := by
  rw [update_assoc, List.map_map]
  apply List.map_congr_left
  intro p hp
  by_cases h : (p.1 == k) = true
  · simp only [Function.comp_apply, h, if_true]
    exact (eq_of_beq h).symm
  · have hne : p.1 ≠ k := by simpa using h
    simp [Function.comp_apply, hne]

theorem add_role_writers_keys (role : String) (mem : List String) (ss : List String)
    (w w' : List (String × List String)) (h : add_role_writers role mem ss w = Except.ok w') :
    w'.map Prod.fst = w.map Prod.fst := by
  induction ss generalizing w with
  | nil =>
    rw [add_role_writers] at h
    cases h
    rfl
  | cons s rest ih =>
    rw [add_role_writers] at h
    cases hl : List.lookup s w with
    | none => rw [hl] at h; cases h
    | some cur =>
      rw [hl] at h
      rw [ih _ h, map_fst_update_assoc]

theorem add_role_writers_ok_mem (role : String) (mem : List String) (ss : List String)
    (w w' : List (String × List String)) (h : add_role_writers role mem ss w = Except.ok w') :
    ∀ s ∈ ss, s ∈ w.map Prod.fst := by
  induction ss generalizing w with
  | nil => intro s hs; cases hs
  | cons s0 rest ih =>
    intro s hs
    rw [add_role_writers] at h
    cases hl : List.lookup s0 w with
    | none => rw [hl] at h; cases h
    | some cur =>
      rw [hl] at h
      rcases List.mem_cons.mp hs with rfl | hs'
      · exact List.mem_map.mpr ⟨(s, cur), lookup_mem _ _ _ hl, rfl⟩
      · have := ih _ h s hs'
        rwa [map_fst_update_assoc] at this

theorem add_all_writers_cond (membersOf : List (String × List String))
    (personal : List String) (l : Spec) (w w' : List (String × List String))
    (h : add_all_writers membersOf personal l w = Except.ok w') :
    ∀ rc ∈ l, ∀ s ∈ writable_schemas_of personal rc.2, s ∈ w.map Prod.fst := by
  induction l generalizing w with
  | nil => intro rc hrc; cases hrc
  | cons rc0 rest ih =>
    intro rc hrc s hs
    rw [add_all_writers] at h
    cases ha : add_role_writers rc0.1 ((List.lookup rc0.1 membersOf).getD [])
        (writable_schemas_of personal rc0.2) w with
    | error e => rw [ha] at h; cases h
    | ok w1 =>
      rw [ha] at h
      rcases List.mem_cons.mp hrc with rfl | hrc'
      · exact add_role_writers_ok_mem _ _ _ _ _ ha s hs
      · have := ih w1 h rc hrc' s hs
        rwa [add_role_writers_keys _ _ _ _ _ ha] at this

theorem mem_map_fst_upsert (m : List (String × String)) (k v s : String) :
    s ∈ (upsert m k v).map Prod.fst ↔ s ∈ m.map Prod.fst ∨ s = k := by
  unfold upsert
  split
  · rename_i hany
    have hk : k ∈ m.map Prod.fst := by
      rcases List.any_eq_true.mp hany with ⟨p, hp, hpe⟩
      exact List.mem_map.mpr ⟨p, hp, eq_of_beq hpe⟩
    have hkeys : (m.map fun p => if p.1 == k then (k, v) else p).map Prod.fst =
        m.map Prod.fst := by
      rw [List.map_map]
      apply List.map_congr_left
      intro p hp
      by_cases h : (p.1 == k) = true
      · simp only [Function.comp_apply, h, if_true]
        exact (eq_of_beq h).symm
      · have hne : p.1 ≠ k := by simpa using h
        simp [Function.comp_apply, hne]
    rw [hkeys]
    constructor
    · exact Or.inl
    · rintro (h | rfl)
      · exact h
      · exact hk
  · simp [List.mem_append]

theorem owns_fold_keys (schemas : List String) (role : String)
    (acc : List (String × String)) (s : String) :
    s ∈ ((schemas.foldl (fun o schema => upsert o schema role) acc).map Prod.fst) ↔
      s ∈ acc.map Prod.fst ∨ s ∈ schemas := by
  induction schemas generalizing acc with
  | nil => simp
  | cons sc rest ih =>
    rw [List.foldl_cons, ih, mem_map_fst_upsert]
    simp [List.mem_cons]
    tauto

theorem owners_step_keys (acc : List (String × String)) (rc : String × Option RoleConfig)
    (s : String) :
    s ∈ (owners_step acc rc).map Prod.fst ↔
      s ∈ acc.map Prod.fst ∨ config_owns rc.2 s = true ∨
        (config_personal rc.2 = true ∧ rc.1 = s) := by
  rcases rc with ⟨rname, cfg⟩
  cases cfg with
  | none => simp [owners_step, config_owns, config_personal]
  | some c =>
    cases hps : c.has_personal_schema with
    | true =>
      simp only [owners_step, config_owns, config_personal, hps, if_true]
      rw [mem_map_fst_upsert, owns_fold_keys]
      simp only [decide_eq_true_eq, true_and]
      constructor
      · rintro ((h | h) | h)
        · exact Or.inl h
        · exact Or.inr (Or.inl h)
        · exact Or.inr (Or.inr h.symm)
      · rintro (h | h | h)
        · exact Or.inl (Or.inl h)
        · exact Or.inl (Or.inr h)
        · exact Or.inr h.symm
    | false =>
      simp only [owners_step, config_owns, config_personal, hps]
      rw [if_neg (by simp : ¬(false = true))]
      rw [owns_fold_keys]
      simp only [decide_eq_true_eq]
      constructor
      · rintro (h | h)
        · exact Or.inl h
        · exact Or.inr (Or.inl h)
      · rintro (h | h | ⟨h, _⟩)
        · exact Or.inl h
        · exact Or.inr h
        · cases h

theorem owners_keys_fold (l : Spec) (acc : List (String × String)) (s : String) :
    s ∈ ((l.foldl owners_step acc).map Prod.fst) ↔
      s ∈ acc.map Prod.fst ∨
        ∃ rc ∈ l, config_owns rc.2 s = true ∨ (config_personal rc.2 = true ∧ rc.1 = s) := by
  induction l generalizing acc with
  | nil => simp
  | cons rc0 rest ih =>
    rw [List.foldl_cons, ih, owners_step_keys]
    constructor
    · rintro ((h | h | h) | ⟨rc, hrc, h⟩)
      · exact Or.inl h
      · exact Or.inr ⟨rc0, List.mem_cons_self _ _, Or.inl h⟩
      · exact Or.inr ⟨rc0, List.mem_cons_self _ _, Or.inr h⟩
      · exact Or.inr ⟨rc, List.mem_cons_of_mem _ hrc, h⟩
    · rintro (h | ⟨rc, hrc, h⟩)
      · exact Or.inl (Or.inl h)
      · rcases List.mem_cons.mp hrc with rfl | hrc2
        · rcases h with h | h
          · exact Or.inl (Or.inr (Or.inl h))
          · exact Or.inl (Or.inr (Or.inr h))
        · exact Or.inr ⟨rc, hrc2, h⟩

theorem personal_mem_fold (l : Spec) (acc : List String) (s : String) :
    s ∈ l.foldl personal_step acc ↔
      s ∈ acc ∨ ∃ rc ∈ l, config_personal rc.2 = true ∧ rc.1 = s := by
  induction l generalizing acc with
  | nil => simp
  | cons rc0 rest ih =>
    rw [List.foldl_cons, ih]
    have hstep : s ∈ personal_step acc rc0 ↔
        s ∈ acc ∨ (config_personal rc0.2 = true ∧ rc0.1 = s) := by
      rcases rc0 with ⟨rname, cfg⟩
      cases cfg with
      | none => simp [personal_step, config_personal]
      | some c =>
        cases hps : c.has_personal_schema with
        | true =>
          simp only [personal_step, config_personal, hps, if_true, mem_setInsert, true_and]
          constructor
          · rintro (h | h)
            · exact Or.inl h
            · exact Or.inr h.symm
          · rintro (h | h)
            · exact Or.inl h
            · exact Or.inr h.symm
        | false =>
          simp only [personal_step, config_personal, hps]
          rw [if_neg (by simp : ¬(false = true))]
          simp
    rw [hstep]
    constructor
    · rintro ((h | h) | ⟨rc, hrc, h⟩)
      · exact Or.inl h
      · exact Or.inr ⟨rc0, List.mem_cons_self _ _, h⟩
      · exact Or.inr ⟨rc, List.mem_cons_of_mem _ hrc, h⟩
    · rintro (h | ⟨rc, hrc, h⟩)
      · exact Or.inl (Or.inl h)
      · rcases List.mem_cons.mp hrc with rfl | hrc2
        · exact Or.inl (Or.inr h)
        · exact Or.inr ⟨rc, hrc2, h⟩

theorem owners_keys (spec : Spec) (s : String) :
    s ∈ (determine_schema_owners spec).map Prod.fst ↔
      (∃ rc ∈ spec, config_owns rc.2 s = true) ∨ s ∈ determine_personal_schemas spec := by
  rw [determine_schema_owners, owners_keys_fold, determine_personal_schemas,
    personal_mem_fold]
  simp only [List.map_nil, List.not_mem_nil, false_or]
  constructor
  · rintro ⟨rc, hrc, h | h⟩
    · exact Or.inl ⟨rc, hrc, h⟩
    · exact Or.inr ⟨rc, hrc, h⟩
  · rintro (⟨rc, hrc, h⟩ | ⟨rc, hrc, h⟩)
    · exact ⟨rc, hrc, Or.inl h⟩
    · exact ⟨rc, hrc, Or.inr h⟩

theorem c10_ok_implies_cond (spec : Spec) (membersOf : List (String × List String))
    (writers : List (String × List String))
    (h : add_all_writers membersOf (determine_personal_schemas spec) spec
      ((determine_schema_owners spec).map (fun p => (p.1, [p.2]))) = Except.ok writers) :
    schemas_write_condition spec := by
  intro rc hrc s hs
  have hmem := add_all_writers_cond _ _ _ _ _ h rc hrc s hs
  have hkeys : ((determine_schema_owners spec).map (fun p => (p.1, [p.2]))).map Prod.fst =
      (determine_schema_owners spec).map Prod.fst := by
    rw [List.map_map]
    apply List.map_congr_left
    intro p hp
    rfl
  rw [hkeys, owners_keys] at hmem
  exact hmem

instance schemas_write_condition_decidable (spec : Spec) :
    Decidable (schemas_write_condition spec) := by
  unfold schemas_write_condition
  infer_instance

/-- Claim C10: determine_schema_writers returns a writer map only when
every schema named in some role's privileges.schemas.write list (after
expanding the personal_schemas sentinel) is owned by some role of the spec
or is a personal schema; when that condition fails (and the member
resolution terminates), it raises an unhandled KeyError instead of
returning. -/
theorem claim_c10_unowned_written_schema_raises (spec : Spec) :
    (∀ w, determine_schema_writers spec = some (Except.ok w) → schemas_write_condition spec) ∧
    (¬ schemas_write_condition spec → determine_role_members spec ≠ none →
      ∃ e, determine_schema_writers spec = some (Except.error e)) := by
  constructor
  · intro w h
    unfold determine_schema_writers at h
    cases hm : determine_role_members spec with
    | none => rw [hm] at h; cases h
    | some membersOf =>
      rw [hm] at h
      simp only [] at h
      cases ha : add_all_writers membersOf (determine_personal_schemas spec) spec
          ((determine_schema_owners spec).map (fun p => (p.1, [p.2]))) with
      | error e => rw [ha] at h; simp at h
      | ok writers => exact c10_ok_implies_cond spec membersOf writers ha
  · intro hcond hterm
    cases hm : determine_role_members spec with
    | none => exact absurd hm hterm
    | some membersOf =>
      cases ha : add_all_writers membersOf (determine_personal_schemas spec) spec
          ((determine_schema_owners spec).map (fun p => (p.1, [p.2]))) with
      | error e =>
        refine ⟨e, ?_⟩
        unfold determine_schema_writers
        rw [hm]
        simp only [ha]
      | ok writers =>
        exact absurd (c10_ok_implies_cond spec membersOf writers ha) hcond

/-- A concrete spec for the claim C10 witness: alice asks for write on a
schema nobody owns. -/
def spec_c10 : Spec :=
  [("alice", some { privileges := [("schemas", { write := some ["ghost"] })] })]

/-- Witness for claim C10 at a concrete spec: the condition fails, member
resolution terminates, and determine_schema_writers raises. -/
theorem claim_c10_witness :
    (¬ schemas_write_condition spec_c10 ∧ determine_role_members spec_c10 ≠ none) ∧
    ∃ e, determine_schema_writers spec_c10 = some (Except.error e) :=
  ⟨⟨by decide, by decide⟩,
    (claim_c10_unowned_written_schema_raises spec_c10).2 (by decide) (by decide)⟩

end ClaimC10

section ClaimC9

/-- Claim C9: the statement list of one analyzer run is deterministic (it
is a function of the analyzer state) and is exactly four groups in the
fixed order non-default grants, non-default revokes, default grants,
default revokes (the last two present only for object kinds with default
ACLs, which emit nothing there otherwise), where each group is the
corresponding set difference sorted lexicographically by its tuple key. -/
theorem claim_c9_output_order (pa : PrivilegeAnalyzer) (ds : DesiredSets) (sql : List String)
    (hid : pa.identify_desired_objects = Except.ok ds)
    (h : pa.analyze = Except.ok sql) :
    ∃ ndg ndr dg dr,
      List.Sorted pairLe ndg ∧
      List.Perm ndg (setDiff ds.desired_nondefaults pa.current_nondefaults) ∧
      List.Sorted pairLe ndr ∧
      List.Perm ndr (setDiff pa.current_nondefaults ds.desired_nondefaults) ∧
      List.Sorted tripLe dg ∧
      List.Perm dg (setDiff ds.desired_defaults pa.current_defaults) ∧
      List.Sorted tripLe dr ∧
      List.Perm dr (setDiff pa.current_defaults ds.desired_defaults) ∧
      sql = ndg.map pa.grant_nondefault ++ ndr.map pa.revoke_nondefault
        ++ (if pa.default_acl_possible then
              dg.map pa.grant_default ++ dr.map pa.revoke_default
            else []) := by
  have hsql : sql = pa.analyze_nondefaults ds.desired_nondefaults
      ++ (if pa.default_acl_possible then pa.analyze_defaults ds.desired_defaults else []) := by
    rw [PrivilegeAnalyzer.analyze, hid] at h
    injection h with h
    exact h.symm
  refine ⟨List.insertionSort pairLe (setDiff ds.desired_nondefaults pa.current_nondefaults),
          List.insertionSort pairLe (setDiff pa.current_nondefaults ds.desired_nondefaults),
          List.insertionSort tripLe (setDiff ds.desired_defaults pa.current_defaults),
          List.insertionSort tripLe (setDiff pa.current_defaults ds.desired_defaults),
          List.sorted_insertionSort pairLe _, List.perm_insertionSort pairLe _,
          List.sorted_insertionSort pairLe _, List.perm_insertionSort pairLe _,
          List.sorted_insertionSort tripLe _, List.perm_insertionSort tripLe _,
          List.sorted_insertionSort tripLe _, List.perm_insertionSort tripLe _, ?_⟩
  rw [hsql, PrivilegeAnalyzer.analyze_nondefaults, PrivilegeAnalyzer.analyze_defaults,
    List.append_assoc]

/-- The concrete analyzer for the claim C9 witness: one grant and one
revoke at read level for tables. -/
def pa_c9 : PrivilegeAnalyzer :=
  { rolename := "r", access := "read", object_kind := "tables"
    desired_items := ["s.t1"], schema_writers := [], personal_schemas := []
    current_defaults := [], current_nondefaults := [("s.t2", "SELECT")]
    all_object_attrs := [("tables", [("s", [(⟨"s", some "t1"⟩, "o")])])] }

/-- Witness for claim C9 at a concrete analyzer. -/
theorem claim_c9_witness :
    (pa_c9.identify_desired_objects = Except.ok ⟨[("s.t1", "SELECT")], []⟩ ∧
      pa_c9.analyze = Except.ok ["GRANT SELECT ON TABLE s.t1 TO \"r\";",
        "REVOKE SELECT ON TABLE s.t2 FROM \"r\";"]) ∧
    (∃ ndg ndr dg dr,
      List.Sorted pairLe ndg ∧
      List.Perm ndg (setDiff ([("s.t1", "SELECT")] : List (String × String))
        pa_c9.current_nondefaults) ∧
      List.Sorted pairLe ndr ∧
      List.Perm ndr (setDiff pa_c9.current_nondefaults [("s.t1", "SELECT")]) ∧
      List.Sorted tripLe dg ∧
      List.Perm dg (setDiff ([] : List (String × String × String)) pa_c9.current_defaults) ∧
      List.Sorted tripLe dr ∧
      List.Perm dr (setDiff pa_c9.current_defaults ([] : List (String × String × String))) ∧
      ["GRANT SELECT ON TABLE s.t1 TO \"r\";", "REVOKE SELECT ON TABLE s.t2 FROM \"r\";"] =
        ndg.map pa_c9.grant_nondefault ++ ndr.map pa_c9.revoke_nondefault
          ++ (if pa_c9.default_acl_possible then
                dg.map pa_c9.grant_default ++ dr.map pa_c9.revoke_default
              else [])) :=
  ⟨⟨by decide, by decide⟩,
    claim_c9_output_order pa_c9 ⟨[("s.t1", "SELECT")], []⟩
      ["GRANT SELECT ON TABLE s.t1 TO \"r\";", "REVOKE SELECT ON TABLE s.t2 FROM \"r\";"]
      (by decide) (by decide)⟩

end ClaimC9

section ClaimC5

/-- Whether one analyzer run aborts with the personal_schemas authoring
error. -/
def raises_personal_schemas_error (pa : PrivilegeAnalyzer) : Bool :=
  match pa.identify_desired_objects with
  | Except.error (PrivError.personalSchemasError _ _ _) => true
  | _ => false

/-- Every singly named item of the desired list resolves to an owner (the
precondition under which no unknown-object error can fire before the
keyword check reaches a 'personal_schemas' item). -/
def resolvable_single_items (pa : PrivilegeAnalyzer) : Prop :=
  ∀ item ∈ pa.desired_items, item ≠ "personal_schemas" → item ≠ "personal_schemas.*" →
    endsWithDotStar item = false →
    exceptIsOk (get_object_owner pa.all_object_attrs pa.rolename pa.object_kind
      (ensure_quoted_identifier item)) = true

instance resolvable_single_items_decidable (pa : PrivilegeAnalyzer) :
    Decidable (resolvable_single_items pa) := by
  unfold resolvable_single_items
  infer_instance

theorem get_object_owner_error (attrs : ObjectAttrs) (rn k item : String) (e : PrivError)
    (h : get_object_owner attrs rn k item = Except.error e) :
    e = PrivError.objectDoesNotExist (strDropLast k) item rn := by
  unfold get_object_owner at h
  cases ho : object_owner_lookup attrs k item with
  | none =>
    simp only [ho] at h
    injection h with h
    exact h.symm
  | some owner =>
    simp only [ho] at h
    by_cases he : owner = ""
    · rw [if_pos he] at h
      injection h with h
      exact h.symm
    · rw [if_neg he] at h
      cases h

theorem privilegeMapGet_error (k a : String) (e : PrivError)
    (h : privilegeMapGet k a = Except.error e) : ∃ key, e = PrivError.keyError key := by
  unfold privilegeMapGet at h
  cases hl : List.lookup k PRIVILEGE_MAP with
  | none =>
    simp only [hl] at h
    injection h with h
    exact ⟨k, h.symm⟩
  | some verbs =>
    simp only [hl] at h
    by_cases h1 : a = "read"
    · rw [if_pos h1] at h; cases h
    · rw [if_neg h1] at h
      by_cases h2 : a = "write"
      · rw [if_pos h2] at h; cases h
      · rw [if_neg h2] at h
        injection h with h
        exact ⟨a, h.symm⟩

theorem determine_desired_defaults_error (rn : String)
    (sw : List (String × List String)) (pt : List String)
    (ss : List String) (acc : List (String × String × String)) (e : PrivError)
    (h : determine_desired_defaults rn sw pt ss acc = Except.error e) :
    ∃ key, e = PrivError.keyError key := by
  induction ss generalizing acc with
  | nil => rw [determine_desired_defaults] at h; cases h
  | cons s rest ih =>
    rw [determine_desired_defaults] at h
    cases hl : List.lookup s sw with
    | none =>
      simp only [hl] at h
      injection h with h
      exact ⟨s, h.symm⟩
    | some writers =>
      simp only [hl] at h
      exact ih _ h

theorem scan_items_ps_error (rn k a : String) (personal : List String) (attrs : ObjectAttrs)
    (items : List String) (acc : List String × List String) (rn2 k2 a2 : String)
    (h : scan_items rn k a personal attrs items acc =
      Except.error (PrivError.personalSchemasError rn2 k2 a2)) :
    "personal_schemas" ∈ items ∧ k ≠ "schemas" ∧ rn2 = rn ∧ k2 = k ∧ a2 = a := by
  induction items generalizing acc with
  | nil => rw [scan_items] at h; cases h
  | cons item rest ih =>
    rw [scan_items] at h
    by_cases h1 : item = "personal_schemas"
    · rw [if_pos h1] at h
      by_cases h2 : k = "schemas"
      · rw [if_pos h2] at h
        rcases ih _ h with ⟨hm, hk, e1, e2, e3⟩
        exact ⟨List.mem_cons_of_mem _ hm, hk, e1, e2, e3⟩
      · rw [if_neg h2] at h
        injection h with h
        injection h with e1 e2 e3
        exact ⟨h1 ▸ List.mem_cons_self _ _, h2, e1.symm, e2.symm, e3.symm⟩
    · rw [if_neg h1] at h
      by_cases h3 : item = "personal_schemas.*"
      · rw [if_pos h3] at h
        rcases ih _ h with ⟨hm, hk, e1, e2, e3⟩
        exact ⟨List.mem_cons_of_mem _ hm, hk, e1, e2, e3⟩
      · rw [if_neg h3] at h
        by_cases h4 : endsWithDotStar item = false
        · rw [if_pos h4] at h
          cases ho : get_object_owner attrs rn k (ensure_quoted_identifier item) with
          | error e =>
            simp only [ho] at h
            injection h with h
            have := get_object_owner_error _ _ _ _ _ ho
            rw [h] at this
            cases this
          | ok owner =>
            simp only [ho] at h
            by_cases h5 : owner ≠ rn
            · rw [if_pos h5] at h
              rcases ih _ h with ⟨hm, hk, e1, e2, e3⟩
              exact ⟨List.mem_cons_of_mem _ hm, hk, e1, e2, e3⟩
            · rw [if_neg h5] at h
              rcases ih _ h with ⟨hm, hk, e1, e2, e3⟩
              exact ⟨List.mem_cons_of_mem _ hm, hk, e1, e2, e3⟩
        · rw [if_neg h4] at h
          rcases ih _ h with ⟨hm, hk, e1, e2, e3⟩
          exact ⟨List.mem_cons_of_mem _ hm, hk, e1, e2, e3⟩

theorem scan_items_ps_raises (rn k a : String) (personal : List String) (attrs : ObjectAttrs)
    (items : List String) (acc : List String × List String)
    (hmem : "personal_schemas" ∈ items) (hk : k ≠ "schemas")
    (hres : ∀ item ∈ items, item ≠ "personal_schemas" → item ≠ "personal_schemas.*" →
      endsWithDotStar item = false →
      exceptIsOk (get_object_owner attrs rn k (ensure_quoted_identifier item)) = true) :
    scan_items rn k a personal attrs items acc =
      Except.error (PrivError.personalSchemasError rn k a) := by
  induction items generalizing acc with
  | nil => cases hmem
  | cons item rest ih =>
    rw [scan_items]
    by_cases h1 : item = "personal_schemas"
    · rw [if_pos h1, if_neg hk]
    · have hmem2 : "personal_schemas" ∈ rest := by
        rcases List.mem_cons.mp hmem with e | hm
        · exact absurd e.symm h1
        · exact hm
      have hres2 := fun it hit => hres it (List.mem_cons_of_mem _ hit)
      rw [if_neg h1]
      by_cases h3 : item = "personal_schemas.*"
      · rw [if_pos h3]
        exact ih _ hmem2 hres2
      · rw [if_neg h3]
        by_cases h4 : endsWithDotStar item = false
        · rw [if_pos h4]
          have hok := hres item (List.mem_cons_self _ _) h1 h3 h4
          cases ho : get_object_owner attrs rn k (ensure_quoted_identifier item) with
          | error e =>
            rw [ho] at hok
            simp [exceptIsOk] at hok
          | ok owner =>
            simp only [ho]
            by_cases h5 : owner ≠ rn
            · rw [if_pos h5]
              exact ih _ hmem2 hres2
            · rw [if_neg h5]
              exact ih _ hmem2 hres2
        · rw [if_neg h4]
          exact ih _ hmem2 hres2

theorem scan_items_objs_mono (rn k a : String) (personal : List String) (attrs : ObjectAttrs)
    (items : List String) (acc : List String × List String) (os : List String × List String)
    (h : scan_items rn k a personal attrs items acc = Except.ok os) :
    ∀ x ∈ acc.1, x ∈ os.1 := by
  induction items generalizing acc with
  | nil =>
    rw [scan_items] at h
    injection h with h
    subst h
    exact fun x hx => hx
  | cons item rest ih =>
    intro x hx
    rw [scan_items] at h
    by_cases h1 : item = "personal_schemas"
    · rw [if_pos h1] at h
      by_cases h2 : k = "schemas"
      · rw [if_pos h2] at h
        exact ih _ h x (by simp only [mem_setUnion]; exact Or.inl hx)
      · rw [if_neg h2] at h
        cases h
    · rw [if_neg h1] at h
      by_cases h3 : item = "personal_schemas.*"
      · rw [if_pos h3] at h
        exact ih _ h x hx
      · rw [if_neg h3] at h
        by_cases h4 : endsWithDotStar item = false
        · rw [if_pos h4] at h
          cases ho : get_object_owner attrs rn k (ensure_quoted_identifier item) with
          | error e => rw [ho] at h; cases h
          | ok owner =>
            simp only [ho] at h
            by_cases h5 : owner ≠ rn
            · rw [if_pos h5] at h
              exact ih _ h x (by simp only [mem_setInsert]; exact Or.inl hx)
            · rw [if_neg h5] at h
              exact ih _ h x hx
        · rw [if_neg h4] at h
          exact ih _ h x hx

theorem scan_items_ps_expansion (rn a : String) (personal : List String)
    (attrs : ObjectAttrs) (items : List String) (acc : List String × List String)
    (os : List String × List String) (hmem : "personal_schemas" ∈ items)
    (h : scan_items rn "schemas" a personal attrs items acc = Except.ok os) :
    ∀ p ∈ personal, p ∈ os.1 := by
  induction items generalizing acc with
  | nil => cases hmem
  | cons item rest ih =>
    intro p hp
    rw [scan_items] at h
    by_cases h1 : item = "personal_schemas"
    · rw [if_pos h1, if_pos rfl] at h
      exact scan_items_objs_mono _ _ _ _ _ _ _ _ h p
        (by simp only [mem_setUnion]; exact Or.inr hp)
    · have hmem2 : "personal_schemas" ∈ rest := by
        rcases List.mem_cons.mp hmem with e | hm
        · exact absurd e.symm h1
        · exact hm
      rw [if_neg h1] at h
      by_cases h3 : item = "personal_schemas.*"
      · rw [if_pos h3] at h
        exact ih _ hmem2 h p hp
      · rw [if_neg h3] at h
        by_cases h4 : endsWithDotStar item = false
        · rw [if_pos h4] at h
          cases ho : get_object_owner attrs rn "schemas" (ensure_quoted_identifier item) with
          | error e => rw [ho] at h; cases h
          | ok owner =>
            simp only [ho] at h
            by_cases h5 : owner ≠ rn
            · rw [if_pos h5] at h
              exact ih _ hmem2 h p hp
            · rw [if_neg h5] at h
              exact ih _ hmem2 h p hp
        · rw [if_neg h4] at h
          exact ih _ hmem2 h p hp

theorem identify_error_cases (pa : PrivilegeAnalyzer) (e : PrivError)
    (h : pa.identify_desired_objects = Except.error e) :
    scan_items pa.rolename pa.object_kind pa.access pa.personal_schemas pa.all_object_attrs
      pa.desired_items ([], []) = Except.error e ∨ ∃ key, e = PrivError.keyError key := by
  unfold PrivilegeAnalyzer.identify_desired_objects at h
  cases hs : scan_items pa.rolename pa.object_kind pa.access pa.personal_schemas
      pa.all_object_attrs pa.desired_items ([], []) with
  | error e2 =>
    rw [hs] at h
    injection h with h
    subst h
    exact Or.inl rfl
  | ok os =>
    rw [hs] at h
    cases hp : privilegeMapGet pa.object_kind pa.access with
    | error e3 =>
      simp only [hp] at h
      injection h with h
      subst h
      exact Or.inr (privilegeMapGet_error _ _ _ hp)
    | ok pt =>
      simp only [hp] at h
      cases hd : pa.default_acl_possible with
      | false =>
        simp only [hd] at h
        rw [if_neg (by simp : ¬(false = true))] at h
        cases h
      | true =>
        simp only [hd, if_true] at h
        cases hdd : determine_desired_defaults pa.rolename pa.schema_writers pt os.2 [] with
        | error e4 =>
          simp only [hdd] at h
          injection h with h
          subst h
          exact Or.inr (determine_desired_defaults_error _ _ _ _ _ _ hdd)
        | ok dd =>
          simp only [hdd] at h
          cases h

/-- Claim C5 (amended): the personal_schemas authoring error is raised only
if the desired list contains the exact item 'personal_schemas' and the
object kind is not 'schemas'; conversely it is raised whenever that holds
and every singly named item resolves to an owner (otherwise the scan can
abort earlier with the unknown-object error, see the counterexample); for
object kind 'schemas' the authoring error is never raised and a successful
scan expands the keyword into every personal-schema name. -/
theorem claim_c5_amended_personal_schemas (pa : PrivilegeAnalyzer) :
    (raises_personal_schemas_error pa = true →
      "personal_schemas" ∈ pa.desired_items ∧ pa.object_kind ≠ "schemas") ∧
    ("personal_schemas" ∈ pa.desired_items → pa.object_kind ≠ "schemas" →
      resolvable_single_items pa → raises_personal_schemas_error pa = true) ∧
    (pa.object_kind = "schemas" → raises_personal_schemas_error pa = false) ∧
    (pa.object_kind = "schemas" → "personal_schemas" ∈ pa.desired_items →
      ∀ os, scan_items pa.rolename pa.object_kind pa.access pa.personal_schemas
          pa.all_object_attrs pa.desired_items ([], []) = Except.ok os →
        ∀ p ∈ pa.personal_schemas, p ∈ os.1) := by
  have part1 : raises_personal_schemas_error pa = true →
      "personal_schemas" ∈ pa.desired_items ∧ pa.object_kind ≠ "schemas" := by
    intro h
    unfold raises_personal_schemas_error at h
    cases hi : pa.identify_desired_objects with
    | ok ds => rw [hi] at h; cases h
    | error e =>
      rw [hi] at h
      cases e with
      | personalSchemasError rn2 k2 a2 =>
        rcases identify_error_cases pa _ hi with hs | ⟨key, hk⟩
        · rcases scan_items_ps_error _ _ _ _ _ _ _ _ _ _ hs with ⟨hm, hkind, _, _, _⟩
          exact ⟨hm, hkind⟩
        · cases hk
      | objectDoesNotExist x y z => cases h
      | keyError x => cases h
  refine ⟨part1, ?_, ?_, ?_⟩
  · intro hmem hk hres
    have hscan := scan_items_ps_raises pa.rolename pa.object_kind pa.access
      pa.personal_schemas pa.all_object_attrs pa.desired_items ([], []) hmem hk hres
    unfold raises_personal_schemas_error
    unfold PrivilegeAnalyzer.identify_desired_objects
    rw [hscan]
  · intro hk
    cases hr : raises_personal_schemas_error pa with
    | false => rfl
    | true => exact absurd hk (part1 hr).2
  · intro hk hmem os hs p hp
    rw [hk] at hs
    exact scan_items_ps_expansion _ _ _ _ _ _ _ hmem hs p hp

/-- The counterexample configuration for claim C5: an unknown single object
precedes the keyword in the desired list. -/
def pa_c5 : PrivilegeAnalyzer :=
  { rolename := "bob", access := "read", object_kind := "tables"
    desired_items := ["ghost.tbl", "personal_schemas"], schema_writers := []
    personal_schemas := [], current_defaults := [], current_nondefaults := []
    all_object_attrs := [] }

/-- Claim C5 counterexample: the claim's "if and only if" fails in the
if direction. Here the list contains the exact item 'personal_schemas' and
the object kind is tables, yet the run does not raise the authoring error:
it aborts first with the unknown-object error for the earlier item. -/
theorem claim_c5_counterexample :
    ("personal_schemas" ∈ pa_c5.desired_items ∧ pa_c5.object_kind ≠ "schemas") ∧
    raises_personal_schemas_error pa_c5 = false ∧
    pa_c5.identify_desired_objects =
      Except.error (PrivError.objectDoesNotExist "table" "ghost.tbl" "bob") :=
  ⟨⟨by decide, by decide⟩, by decide, by decide⟩

/-- The witness configuration for the amended claim C5. -/
def pa_c5w : PrivilegeAnalyzer :=
  { rolename := "bob", access := "read", object_kind := "tables"
    desired_items := ["personal_schemas"], schema_writers := []
    personal_schemas := [], current_defaults := [], current_nondefaults := []
    all_object_attrs := [] }

/-- Witness for the amended claim C5 at a concrete analyzer. -/
theorem claim_c5_witness :
    ("personal_schemas" ∈ pa_c5w.desired_items ∧ pa_c5w.object_kind ≠ "schemas" ∧
      resolvable_single_items pa_c5w) ∧
    raises_personal_schemas_error pa_c5w = true :=
  ⟨⟨by decide, by decide, by decide⟩,
    (claim_c5_amended_personal_schemas pa_c5w).2.1 (by decide) (by decide) (by decide)⟩

end ClaimC5

section ClaimC6

/-- Well-formedness of the ownership snapshot, as the database guarantees
it: within each object kind, each schema bucket is keyed by a dot-free
schema name, every object in the bucket carries that schema name, and no
object appears twice in a bucket. -/
def WFAttrs (attrs : ObjectAttrs) : Prop :=
  ∀ ke ∈ attrs, ∀ se ∈ ke.2, ('.' ∉ se.1.data) ∧
    (∀ oe ∈ se.2, oe.1.schema = se.1) ∧ ((se.2.map Prod.fst).Nodup)

instance WFAttrs_decidable (attrs : ObjectAttrs) : Decidable (WFAttrs attrs) := by
  unfold WFAttrs
  infer_instance

theorem mem_foldl_setUnion {β : Type} (f : β → List String) (l : List β)
    (acc : List String) (x : String) :
    x ∈ l.foldl (fun a b => setUnion a (f b)) acc ↔ x ∈ acc ∨ ∃ b ∈ l, x ∈ f b := by
  induction l generalizing acc with
  | nil => simp
  | cons b rest ih =>
    rw [List.foldl_cons, ih]
    simp only [mem_setUnion]
    constructor
    · rintro ((h | h) | ⟨b2, hb2, h⟩)
      · exact Or.inl h
      · exact Or.inr ⟨b, List.mem_cons_self _ _, h⟩
      · exact Or.inr ⟨b2, List.mem_cons_of_mem _ hb2, h⟩
    · rintro (h | ⟨b2, hb2, h⟩)
      · exact Or.inl (Or.inl h)
      · rcases List.mem_cons.mp hb2 with rfl | hb3
        · exact Or.inl (Or.inr h)
        · exact Or.inr ⟨b2, hb3, h⟩

theorem attrsGet_props (attrs : ObjectAttrs) (k s : String) (hwf : WFAttrs attrs)
    (hne : attrsGet attrs k s ≠ []) :
    ('.' ∉ s.data) ∧ (∀ oe ∈ attrsGet attrs k s, oe.1.schema = s) ∧
      ((attrsGet attrs k s).map Prod.fst).Nodup := by
  unfold attrsGet at hne ⊢
  cases hk : List.lookup k attrs with
  | none =>
    rw [hk] at hne
    simp at hne
  | some kl =>
    rw [hk] at hne
    simp only [Option.getD_some] at hne ⊢
    cases hs : List.lookup s kl with
    | none =>
      rw [hs] at hne
      simp at hne
    | some objs =>
      simp only [Option.getD_some]
      have h1 := lookup_mem attrs k kl hk
      have h2 := lookup_mem kl s objs hs
      have := hwf (k, kl) h1 (s, objs) h2
      simpa using this

theorem object_owner_lookup_of_mem (attrs : ObjectAttrs) (k s : String)
    (hwf : WFAttrs attrs) (p : DBObject × String) (hp : p ∈ attrsGet attrs k s) :
    object_owner_lookup attrs k p.1.qualified_name = some p.2 := by
  have hne : attrsGet attrs k s ≠ [] := by
    intro he
    rw [he] at hp
    cases hp
  rcases attrsGet_props attrs k s hwf hne with ⟨hnd, hsch, hnodup⟩
  have hschema : p.1.schema = s := hsch p hp
  have hsplit : splitFirstDot p.1.qualified_name = (s, p.1.object_name) := by
    cases hobj : p.1.object_name with
    | none =>
      simp only [DBObject.qualified_name, hobj, hschema]
      exact splitFirstDot_noDot s hnd
    | some n =>
      simp only [DBObject.qualified_name, hobj, hschema]
      exact splitFirstDot_qualified s n hnd
  have hpeta : p = (p.1, p.2) := rfl
  have hdbo : (⟨s, p.1.object_name⟩ : DBObject) = p.1 := by
    rw [← hschema]
  unfold object_owner_lookup
  rw [hsplit]
  simp only [hdbo]
  rw [find?_key_of_mem_nodup (attrsGet attrs k s) p.1 p.2 hnodup (hpeta ▸ hp)]

theorem scan_items_objs_chars (rn k a : String) (personal : List String)
    (attrs : ObjectAttrs) :
    ∀ (items : List String) (acc os : List String × List String),
      "personal_schemas" ∉ items →
      scan_items rn k a personal attrs items acc = Except.ok os →
      ∀ o ∈ os.1, o ∈ acc.1 ∨
        ∃ ow, get_object_owner attrs rn k o = Except.ok ow ∧ ow ≠ rn := by
  intro items
  induction items with
  | nil =>
    intro acc os hnops h
    rw [scan_items] at h
    injection h with h
    subst h
    exact fun o ho => Or.inl ho
  | cons item rest ih =>
    intro acc os hnops h o ho
    have hnops2 : "personal_schemas" ∉ rest := fun hm => hnops (List.mem_cons_of_mem _ hm)
    have h1 : item ≠ "personal_schemas" := by
      intro hq
      exact hnops (hq ▸ List.mem_cons_self _ _)
    rw [scan_items] at h
    rw [if_neg h1] at h
    by_cases h3 : item = "personal_schemas.*"
    · rw [if_pos h3] at h
      exact ih _ _ hnops2 h o ho
    · rw [if_neg h3] at h
      by_cases h4 : endsWithDotStar item = false
      · rw [if_pos h4] at h
        cases how : get_object_owner attrs rn k (ensure_quoted_identifier item) with
        | error e => rw [how] at h; cases h
        | ok owner =>
          simp only [how] at h
          by_cases h5 : owner ≠ rn
          · rw [if_pos h5] at h
            rcases ih _ _ hnops2 h o ho with hin | hex
            · rcases (mem_setInsert _ _ _).mp hin with hin2 | rfl
              · exact Or.inl hin2
              · exact Or.inr ⟨owner, how, h5⟩
            · exact Or.inr hex
          · rw [if_neg h5] at h
            exact ih _ _ hnops2 h o ho
      · rw [if_neg h4] at h
        exact ih _ _ hnops2 h o ho

theorem identify_ok_parts (pa : PrivilegeAnalyzer) (ds : DesiredSets)
    (h : pa.identify_desired_objects = Except.ok ds) :
    ∃ os pt, scan_items pa.rolename pa.object_kind pa.access pa.personal_schemas
        pa.all_object_attrs pa.desired_items ([], []) = Except.ok os ∧
      privilegeMapGet pa.object_kind pa.access = Except.ok pt ∧
      ds.desired_nondefaults = toSet (listProd
        (os.2.foldl
          (fun acc schema =>
            setUnion acc
              (get_schema_objects pa.all_object_attrs pa.object_kind pa.rolename schema))
          os.1)
        pt) := by
  unfold PrivilegeAnalyzer.identify_desired_objects at h
  cases hs : scan_items pa.rolename pa.object_kind pa.access pa.personal_schemas
      pa.all_object_attrs pa.desired_items ([], []) with
  | error e => rw [hs] at h; cases h
  | ok os =>
    rw [hs] at h
    cases hp : privilegeMapGet pa.object_kind pa.access with
    | error e => simp only [hp] at h; cases h
    | ok pt =>
      simp only [hp] at h
      refine ⟨os, pt, rfl, rfl, ?_⟩
      cases hd : pa.default_acl_possible with
      | false =>
        simp only [hd] at h
        rw [if_neg (by simp : ¬(false = true))] at h
        injection h with h
        rw [← h]
      | true =>
        simp only [hd, if_true] at h
        cases hdd : determine_desired_defaults pa.rolename pa.schema_writers pt os.2 [] with
        | error e => simp only [hdd] at h; cases h
        | ok dd =>
          simp only [hdd] at h
          injection h with h
          rw [← h]

/-- Claim C6 (amended): provided the desired list contains no
'personal_schemas' keyword item and the ownership snapshot is well formed,
every pair of desired_nondefaults names an object whose recorded owner is
not the analyzed role: singly named objects owned by the role are skipped
and schema-wildcard expansion filters role-owned objects. (Objects added by
the 'personal_schemas' keyword are not ownership-filtered; see the
counterexample.) -/
theorem claim_c6_amended_no_owned_objects (pa : PrivilegeAnalyzer) (ds : DesiredSets)
    (hwf : WFAttrs pa.all_object_attrs)
    (hnops : "personal_schemas" ∉ pa.desired_items)
    (h : pa.identify_desired_objects = Except.ok ds) :
    ∀ op ∈ ds.desired_nondefaults,
      object_owner_lookup pa.all_object_attrs pa.object_kind op.1 ≠ some pa.rolename := by
  rcases identify_ok_parts pa ds h with ⟨os, pt, hs, hp, hnd⟩
  intro op hop
  rw [hnd, mem_toSet, mem_listProd] at hop
  rcases hop with ⟨h1, _⟩
  rcases (mem_foldl_setUnion _ _ _ _).mp h1 with hir | ⟨s, _, hobj⟩
  · rcases scan_items_objs_chars _ _ _ _ _ _ _ _ hnops hs op.1 hir with hacc | ⟨ow, how, hownr⟩
    · cases hacc
    · intro hcontra
      unfold get_object_owner at how
      simp only [hcontra] at how
      by_cases he : pa.rolename = ""
      · rw [if_pos he] at how
        cases how
      · rw [if_neg he] at how
        injection how with how
        exact hownr how.symm
  · unfold get_schema_objects at hobj
    rw [mem_toSet, List.mem_map] at hobj
    rcases hobj with ⟨p, hpfil, hq⟩
    rw [List.mem_filter] at hpfil
    rcases hpfil with ⟨hpmem, hpne⟩
    have hlk := object_owner_lookup_of_mem pa.all_object_attrs pa.object_kind s hwf p hpmem
    rw [← hq, hlk]
    intro hcontra
    injection hcontra with hcontra
    rw [hcontra] at hpne
    simp at hpne

/-- The counterexample configuration for claim C6: alice has a personal
schema, asks for read on all personal schemas, and the (well-formed)
snapshot records alice as the owner of schema alice. -/
def pa_c6 : PrivilegeAnalyzer :=
  { rolename := "alice", access := "read", object_kind := "schemas"
    desired_items := ["personal_schemas"], schema_writers := []
    personal_schemas := ["alice"], current_defaults := [], current_nondefaults := []
    all_object_attrs := [("schemas", [("alice", [(⟨"alice", none⟩, "alice")])])] }

/-- Claim C6 counterexample: the desired_nondefaults set of the run
contains the pair (alice, USAGE) although the object alice (the personal
schema) is recorded as owned by the analyzed role alice — the
personal_schemas keyword branch adds personal schemas without any
ownership filtering. -/
theorem claim_c6_counterexample :
    pa_c6.identify_desired_objects = Except.ok ⟨[("alice", "USAGE")], []⟩ ∧
    ("alice", "USAGE") ∈ ([("alice", "USAGE")] : List (String × String)) ∧
    object_owner_lookup pa_c6.all_object_attrs pa_c6.object_kind "alice" = some "alice" ∧
    pa_c6.rolename = "alice" ∧ WFAttrs pa_c6.all_object_attrs :=
  ⟨by decide, by decide, by decide, rfl, by decide⟩

/-- The witness configuration for the amended claim C6. -/
def pa_c6w : PrivilegeAnalyzer :=
  { rolename := "alice", access := "read", object_kind := "tables"
    desired_items := ["s.a"], schema_writers := [], personal_schemas := []
    current_defaults := [], current_nondefaults := []
    all_object_attrs := [("tables", [("s", [(⟨"s", some "a"⟩, "bob")])])] }

/-- Witness for the amended claim C6 at a concrete analyzer. -/
theorem claim_c6_witness :
    (WFAttrs pa_c6w.all_object_attrs ∧ "personal_schemas" ∉ pa_c6w.desired_items ∧
      pa_c6w.identify_desired_objects = Except.ok ⟨[("s.a", "SELECT")], []⟩) ∧
    ∀ op ∈ (⟨[("s.a", "SELECT")], []⟩ : DesiredSets).desired_nondefaults,
      object_owner_lookup pa_c6w.all_object_attrs pa_c6w.object_kind op.1 ≠
        some pa_c6w.rolename :=
  ⟨⟨by decide, by decide, by decide⟩,
    claim_c6_amended_no_owned_objects pa_c6w ⟨[("s.a", "SELECT")], []⟩
      (by decide) (by decide) (by decide)⟩

end ClaimC6

section ClaimC2

theorem analyze_ok_identify (pa : PrivilegeAnalyzer) (sql : List String)
    (h : pa.analyze = Except.ok sql) :
    ∃ ds, pa.identify_desired_objects = Except.ok ds := by
  unfold PrivilegeAnalyzer.analyze at h
  cases hi : pa.identify_desired_objects with
  | error e => rw [hi] at h; cases h
  | ok ds => exact ⟨ds, rfl⟩

theorem qualified_name_split (s : String) :
    DBObject.qualified_name ⟨(splitFirstDot s).1, (splitFirstDot s).2⟩ = s :=
  splitFirstDot_reconstruct s

/-- Executing the emitted non-default statements for one slot makes the
slot's qualified-name image exactly the desired set (membership-wise). -/
theorem applied_nondefault_mem (cur : List (DBObject × String))
    (nd : List (String × String)) (q : String × String) :
    q ∈ (apply_nondefault_statements cur
        (setDiff nd (toSet (cur.map (fun p => (p.1.qualified_name, p.2)))))
        (setDiff (toSet (cur.map (fun p => (p.1.qualified_name, p.2)))) nd)).map
      (fun p => (p.1.qualified_name, p.2)) ↔ q ∈ nd := by
  unfold apply_nondefault_statements
  rw [List.map_append, List.mem_append]
  constructor
  · rintro (h | h)
    · rw [List.mem_map] at h
      rcases h with ⟨p, hp, rfl⟩
      rw [List.mem_filter] at hp
      rcases hp with ⟨hpc, hpr⟩
      rw [decide_eq_true_eq, mem_setDiff] at hpr
      have himg : (p.1.qualified_name, p.2) ∈
          toSet (cur.map (fun p => (p.1.qualified_name, p.2))) := by
        rw [mem_toSet, List.mem_map]
        exact ⟨p, hpc, rfl⟩
      by_contra hq
      exact hpr ⟨himg, hq⟩
    · rw [List.map_map, List.mem_map] at h
      rcases h with ⟨g, hg, rfl⟩
      rw [mem_setDiff] at hg
      simp only [Function.comp_apply, qualified_name_split]
      exact hg.1
  · intro hq
    by_cases himg : q ∈ toSet (cur.map (fun p => (p.1.qualified_name, p.2)))
    · left
      rw [mem_toSet, List.mem_map] at himg
      rcases himg with ⟨p, hp, rfl⟩
      rw [List.mem_map]
      refine ⟨p, ?_, rfl⟩
      rw [List.mem_filter, decide_eq_true_eq, mem_setDiff]
      refine ⟨hp, ?_⟩
      intro hcon
      exact hcon.2 hq
    · right
      rw [List.map_map, List.mem_map]
      refine ⟨q, ?_, ?_⟩
      · rw [mem_setDiff]
        exact ⟨hq, himg⟩
      · simp only [Function.comp_apply, qualified_name_split]

/-- Executing the emitted default statements for one slot makes the slot
exactly the desired set (membership-wise). -/
theorem applied_default_mem (cur : List (String × String × String))
    (dd : List (String × String × String)) (t : String × String × String) :
    t ∈ apply_default_statements cur (setDiff dd (toSet cur)) (setDiff (toSet cur) dd) ↔
      t ∈ dd := by
  unfold apply_default_statements
  rw [List.mem_append]
  constructor
  · rintro (h | h)
    · rw [List.mem_filter] at h
      rcases h with ⟨hc, hr⟩
      rw [decide_eq_true_eq, mem_setDiff] at hr
      by_contra ht
      exact hr ⟨(mem_toSet _ _).mpr hc, ht⟩
    · rw [mem_setDiff] at h
      exact h.1
  · intro ht
    by_cases hc : t ∈ toSet cur
    · left
      rw [List.mem_filter, decide_eq_true_eq, mem_setDiff]
      refine ⟨(mem_toSet _ _).mp hc, ?_⟩
      intro hcon
      exact hcon.2 ht
    · right
      rw [mem_setDiff]
      exact ⟨ht, hc⟩

/-- An analyzer whose current sets already coincide (membership-wise) with
its desired sets emits no statements. -/
theorem analyze_on_applied_current (rn a k : String) (items : List String)
    (sw : List (String × List String)) (ps : List String)
    (cd : List (String × String × String)) (cn : List (String × String))
    (attrs : ObjectAttrs) (cd2 : List (String × String × String))
    (cn2 : List (String × String)) (ds : DesiredSets)
    (hid : PrivilegeAnalyzer.identify_desired_objects
      ⟨rn, a, k, items, sw, ps, cd, cn, attrs⟩ = Except.ok ds)
    (hn : ∀ x, x ∈ cn2 ↔ x ∈ ds.desired_nondefaults)
    (hd : k ∈ OBJECTS_WITH_DEFAULTS → ∀ x, x ∈ cd2 ↔ x ∈ ds.desired_defaults) :
    PrivilegeAnalyzer.analyze ⟨rn, a, k, items, sw, ps, cd2, cn2, attrs⟩ = Except.ok [] := by
  have hid2 : PrivilegeAnalyzer.identify_desired_objects
      ⟨rn, a, k, items, sw, ps, cd2, cn2, attrs⟩ = Except.ok ds := by
    have hirr : PrivilegeAnalyzer.identify_desired_objects
        ⟨rn, a, k, items, sw, ps, cd2, cn2, attrs⟩ =
        PrivilegeAnalyzer.identify_desired_objects
          ⟨rn, a, k, items, sw, ps, cd, cn, attrs⟩ := by
      unfold PrivilegeAnalyzer.identify_desired_objects
      rfl
    rw [hirr]
    exact hid
  have e1 : setDiff ds.desired_nondefaults cn2 = [] :=
    setDiff_eq_nil _ _ fun x hx => (hn x).mpr hx
  have e2 : setDiff cn2 ds.desired_nondefaults = [] :=
    setDiff_eq_nil _ _ fun x hx => (hn x).mp hx
  unfold PrivilegeAnalyzer.analyze
  rw [hid2]
  unfold PrivilegeAnalyzer.analyze_nondefaults PrivilegeAnalyzer.analyze_defaults
  cases hdap : (⟨rn, a, k, items, sw, ps, cd2, cn2, attrs⟩ :
      PrivilegeAnalyzer).default_acl_possible with
  | false =>
    simp only [e1, e2]
    rw [if_neg (by simp : ¬(false = true))]
    simp [List.insertionSort]
  | true =>
    have hk : k ∈ OBJECTS_WITH_DEFAULTS := by
      simp only [PrivilegeAnalyzer.default_acl_possible, decide_eq_true_eq] at hdap
      exact hdap
    have e3 : setDiff ds.desired_defaults cd2 = [] :=
      setDiff_eq_nil _ _ fun x hx => (hd hk x).mpr hx
    have e4 : setDiff cd2 ds.desired_defaults = [] :=
      setDiff_eq_nil _ _ fun x hx => (hd hk x).mp hx
    simp only [e1, e2, e3, e4, if_true]
    simp [List.insertionSort]

theorem applied_db_superusers (spec : Spec) (db : DatabaseContext) :
    (applied_db spec db).superusers = db.superusers := by
  unfold applied_db
  split <;> rfl

theorem applied_db_attrs (spec : Spec) (db : DatabaseContext) :
    (applied_db spec db).all_object_attrs = db.all_object_attrs := by
  unfold applied_db
  split <;> rfl

theorem applied_db_nondefaults (spec : Spec) (db : DatabaseContext)
    (sw : List (String × List String)) (r k a : String) (config : Option RoleConfig)
    (ds : DesiredSets)
    (hsw : determine_schema_writers spec = some (Except.ok sw))
    (hnsup : r ∉ db.superusers)
    (hlk : List.lookup r spec = some config)
    (hid : (analyzer_for db sw (determine_personal_schemas spec) r k a
      (items_for config k a)).identify_desired_objects = Except.ok ds) :
    (applied_db spec db).role_current_nondefaults r k a =
      apply_nondefault_statements (db.role_current_nondefaults r k a)
        (setDiff ds.desired_nondefaults
          (toSet ((db.role_current_nondefaults r k a).map
            (fun p => (p.1.qualified_name, p.2)))))
        (setDiff
          (toSet ((db.role_current_nondefaults r k a).map
            (fun p => (p.1.qualified_name, p.2))))
          ds.desired_nondefaults) := by
  unfold applied_db
  simp only [hsw]
  rw [if_neg hnsup]
  simp only [hlk]
  simp only [hid]
  rfl

theorem applied_db_defaults_pos (spec : Spec) (db : DatabaseContext)
    (sw : List (String × List String)) (r k a : String) (config : Option RoleConfig)
    (ds : DesiredSets)
    (hsw : determine_schema_writers spec = some (Except.ok sw))
    (hnsup : r ∉ db.superusers)
    (hlk : List.lookup r spec = some config)
    (hid : (analyzer_for db sw (determine_personal_schemas spec) r k a
      (items_for config k a)).identify_desired_objects = Except.ok ds)
    (hk : k ∈ OBJECTS_WITH_DEFAULTS) :
    (applied_db spec db).role_current_defaults r k a =
      apply_default_statements (db.role_current_defaults r k a)
        (setDiff ds.desired_defaults (toSet (db.role_current_defaults r k a)))
        (setDiff (toSet (db.role_current_defaults r k a)) ds.desired_defaults) := by
  unfold applied_db
  simp only [hsw]
  rw [if_neg hnsup]
  simp only [hlk]
  have hdap : (analyzer_for db sw (determine_personal_schemas spec) r k a
      (items_for config k a)).default_acl_possible = true := by
    simp only [PrivilegeAnalyzer.default_acl_possible, analyzer_for, decide_eq_true_eq]
    exact hk
  simp only [hdap]
  rw [if_pos trivial]
  simp only [hid]
  rfl

theorem applied_db_defaults_neg (spec : Spec) (db : DatabaseContext)
    (sw : List (String × List String)) (r k a : String) (config : Option RoleConfig)
    (hsw : determine_schema_writers spec = some (Except.ok sw))
    (hnsup : r ∉ db.superusers)
    (hlk : List.lookup r spec = some config)
    (hk : k ∉ OBJECTS_WITH_DEFAULTS) :
    (applied_db spec db).role_current_defaults r k a = db.role_current_defaults r k a := by
  unfold applied_db
  simp only [hsw]
  rw [if_neg hnsup]
  simp only [hlk]
  have hdap : (analyzer_for db sw (determine_personal_schemas spec) r k a
      (items_for config k a)).default_acl_possible = false := by
    simp only [PrivilegeAnalyzer.default_acl_possible, analyzer_for]
    simpa using hk
  simp only [hdap]
  rw [if_neg (by simp : ¬(false = true))]

theorem analyze_applied_access (spec : Spec) (db : DatabaseContext)
    (sw : List (String × List String)) (r k a : String) (config : Option RoleConfig)
    (sql0 : List String)
    (hsw : determine_schema_writers spec = some (Except.ok sw))
    (hnsup : r ∉ db.superusers)
    (hlk : List.lookup r spec = some config)
    (h1 : (analyzer_for db sw (determine_personal_schemas spec) r k a
      (items_for config k a)).analyze = Except.ok sql0) :
    (analyzer_for (applied_db spec db) sw (determine_personal_schemas spec) r k a
      (items_for config k a)).analyze = Except.ok [] := by
  rcases analyze_ok_identify _ _ h1 with ⟨ds, hid⟩
  show PrivilegeAnalyzer.analyze
    { rolename := check_name r, access := a, object_kind := k
      desired_items := items_for config k a, schema_writers := sw
      personal_schemas := determine_personal_schemas spec
      current_defaults := toSet ((applied_db spec db).role_current_defaults r k a)
      current_nondefaults := toSet (((applied_db spec db).role_current_nondefaults r k a).map
        (fun p => (p.1.qualified_name, p.2)))
      all_object_attrs := (applied_db spec db).all_object_attrs } = Except.ok []
  rw [applied_db_attrs, applied_db_nondefaults spec db sw r k a config ds hsw hnsup hlk hid]
  by_cases hk : k ∈ OBJECTS_WITH_DEFAULTS
  · rw [applied_db_defaults_pos spec db sw r k a config ds hsw hnsup hlk hid hk]
    exact analyze_on_applied_current (check_name r) a k (items_for config k a) sw
      (determine_personal_schemas spec)
      (toSet (db.role_current_defaults r k a))
      (toSet ((db.role_current_nondefaults r k a).map (fun p => (p.1.qualified_name, p.2))))
      db.all_object_attrs _ _ ds hid
      (fun x => Iff.trans (mem_toSet _ _)
        (applied_nondefault_mem (db.role_current_nondefaults r k a)
          ds.desired_nondefaults x))
      (fun _ x => Iff.trans (mem_toSet _ _)
        (applied_default_mem (db.role_current_defaults r k a) ds.desired_defaults x))
  · rw [applied_db_defaults_neg spec db sw r k a config hsw hnsup hlk hk]
    exact analyze_on_applied_current (check_name r) a k (items_for config k a) sw
      (determine_personal_schemas spec)
      (toSet (db.role_current_defaults r k a))
      (toSet ((db.role_current_nondefaults r k a).map (fun p => (p.1.qualified_name, p.2))))
      db.all_object_attrs _ _ ds hid
      (fun x => Iff.trans (mem_toSet _ _)
        (applied_nondefault_mem (db.role_current_nondefaults r k a)
          ds.desired_nondefaults x))
      (fun hkk _ => absurd hkk hk)

theorem process_kind_applied (spec : Spec) (db : DatabaseContext)
    (sw : List (String × List String)) (r : String) (config : Option RoleConfig)
    (k : String) (sql0 : List String)
    (hsw : determine_schema_writers spec = some (Except.ok sw))
    (hnsup : r ∉ db.superusers)
    (hlk : List.lookup r spec = some config)
    (h : process_kind db sw (determine_personal_schemas spec) r config k = Except.ok sql0) :
    process_kind (applied_db spec db) sw (determine_personal_schemas spec) r config k =
      Except.ok [] := by
  unfold process_kind at h
  cases h1 : (analyzer_for db sw (determine_personal_schemas spec) r k "read"
      (items_for config k "read")).analyze with
  | error e => rw [h1] at h; cases h
  | ok s1 =>
    rw [h1] at h
    cases h2 : (analyzer_for db sw (determine_personal_schemas spec) r k "write"
        (items_for config k "write")).analyze with
    | error e => rw [h2] at h; cases h
    | ok s2 =>
      unfold process_kind
      rw [analyze_applied_access spec db sw r k "read" config s1 hsw hnsup hlk h1,
        analyze_applied_access spec db sw r k "write" config s2 hsw hnsup hlk h2]
      rfl

theorem process_role_applied (spec : Spec) (db : DatabaseContext)
    (sw : List (String × List String)) (rc : String × Option RoleConfig)
    (out : List String × (String × Option RoleConfig))
    (hsw : determine_schema_writers spec = some (Except.ok sw))
    (hlk : List.lookup rc.1 spec = some rc.2)
    (h : process_role db sw (determine_personal_schemas spec) rc = Except.ok out) :
    process_role (applied_db spec db) sw (determine_personal_schemas spec) rc =
      Except.ok (if rc.1 ∈ db.superusers then
        ([SKIP_SUPERUSER_PRIVILEGE_CONFIGURATION_MSG rc.1], rc)
      else ([], (rc.1, mutate_config rc.2))) := by
  by_cases hsup : rc.1 ∈ db.superusers
  · rw [if_pos hsup]
    unfold process_role
    rw [if_pos (by rw [applied_db_superusers]; exact hsup)]
  · rw [if_neg hsup]
    unfold process_role at h
    rw [if_neg hsup] at h
    cases hm : exMapM (fun kv => process_kind db sw (determine_personal_schemas spec)
        rc.1 rc.2 kv.1) PRIVILEGE_MAP with
    | error e => rw [hm] at h; cases h
    | ok parts =>
      unfold process_role
      rw [if_neg (by rw [applied_db_superusers]; exact hsup)]
      have hall := exMapM_ok_forall _ _ _ hm
      have hm2 : exMapM (fun kv => process_kind (applied_db spec db) sw
          (determine_personal_schemas spec) rc.1 rc.2 kv.1) PRIVILEGE_MAP =
          Except.ok (PRIVILEGE_MAP.map (fun _ => ([] : List String))) := by
        apply exMapM_map
        intro kv hkv
        rcases hall kv hkv with ⟨y, hy⟩
        exact process_kind_applied spec db sw rc.1 rc.2 kv.1 y hsw hsup hlk hy
      rw [hm2]
      rfl

/-- Claim C2: the statement list of analyze_privileges is a fixed point.
When a run over a spec (with distinct role names, as a Python dict
guarantees) succeeds against a snapshot, executing every emitted
grant/revoke statement against the snapshot's current non-default and
default privilege sets (applied_db) and re-running the analysis produces no
grant or revoke statement at all: the second run's output consists solely
of the informational superuser skip messages. -/
theorem claim_c2_analyze_privileges_fixed_point (spec : Spec) (db : DatabaseContext)
    (hnd : (spec.map Prod.fst).Nodup) (sql : List String) (spec1 : Spec)
    (h : analyze_privileges spec db = some (Except.ok (sql, spec1))) :
    ∃ sql2 spec2,
      analyze_privileges spec (applied_db spec db) = some (Except.ok (sql2, spec2)) ∧
      ∀ s ∈ sql2, ∃ r, s = SKIP_SUPERUSER_PRIVILEGE_CONFIGURATION_MSG r := by
  unfold analyze_privileges at h
  cases hsw : determine_schema_writers spec with
  | none => rw [hsw] at h; cases h
  | some swE =>
    cases swE with
    | error e => rw [hsw] at h; simp at h
    | ok sw =>
      rw [hsw] at h
      simp only [] at h
      cases hm : exMapM (process_role db sw (determine_personal_schemas spec)) spec with
      | error e => rw [hm] at h; simp at h
      | ok results =>
        have hall := exMapM_ok_forall _ _ _ hm
        have hrun2 : exMapM (process_role (applied_db spec db) sw
            (determine_personal_schemas spec)) spec =
            Except.ok (spec.map (fun rc => if rc.1 ∈ db.superusers then
              ([SKIP_SUPERUSER_PRIVILEGE_CONFIGURATION_MSG rc.1], rc)
            else ([], (rc.1, mutate_config rc.2)))) := by
          apply exMapM_map
          intro rc hrc
          rcases hall rc hrc with ⟨y, hy⟩
          exact process_role_applied spec db sw rc y hsw
            (lookup_of_mem_nodup spec rc.1 rc.2 hnd hrc) hy
        refine ⟨(spec.map (fun rc => if rc.1 ∈ db.superusers then
            ([SKIP_SUPERUSER_PRIVILEGE_CONFIGURATION_MSG rc.1], rc)
          else ([], (rc.1, mutate_config rc.2)))).foldl (fun acc r => acc ++ r.1) [],
          (spec.map (fun rc => if rc.1 ∈ db.superusers then
            ([SKIP_SUPERUSER_PRIVILEGE_CONFIGURATION_MSG rc.1], rc)
          else ([], (rc.1, mutate_config rc.2)))).map (fun r => r.2), ?_, ?_⟩
        · unfold analyze_privileges
          rw [hsw]
          simp only []
          rw [hrun2]
        · intro s hs
          rcases (mem_foldl_append
              (fun (r : List String × (String × Option RoleConfig)) => r.1)
              (spec.map (fun rc => if rc.1 ∈ db.superusers then
                ([SKIP_SUPERUSER_PRIVILEGE_CONFIGURATION_MSG rc.1], rc)
              else ([], (rc.1, mutate_config rc.2)))) [] s).mp hs with hs | ⟨b, hb, hsb⟩
          · cases hs
          · rw [List.mem_map] at hb
            rcases hb with ⟨rc, _, rfl⟩
            by_cases hsup : rc.1 ∈ db.superusers
            · rw [if_pos hsup] at hsb
              rcases List.mem_cons.mp hsb with rfl | habs
              · exact ⟨rc.1, rfl⟩
              · cases habs
            · rw [if_neg hsup] at hsb
              cases hsb

/-- The concrete spec for the claim C2 witness. -/
def spec_c2 : Spec :=
  [("alice", some { privileges := [("tables", { read := some ["s.a"] })] })]

/-- The concrete snapshot for the claim C2 witness: s.a exists, owned by
bob, and alice currently holds nothing. -/
def db_c2 : DatabaseContext :=
  { superusers := []
    role_current_defaults := fun _ _ _ => []
    role_current_nondefaults := fun _ _ _ => []
    all_object_attrs := [("tables", [("s", [(⟨"s", some "a"⟩, "bob")])])] }

/-- Witness for claim C2 at a concrete run: the first run emits one grant,
and after applying it the second run emits nothing. -/
theorem claim_c2_witness :
    ((spec_c2.map Prod.fst).Nodup ∧
      analyze_privileges spec_c2 db_c2 =
        some (Except.ok (["GRANT SELECT ON TABLE s.a TO \"alice\";"], spec_c2))) ∧
    ∃ sql2 spec2,
      analyze_privileges spec_c2 (applied_db spec_c2 db_c2) =
        some (Except.ok (sql2, spec2)) ∧
      ∀ s ∈ sql2, ∃ r, s = SKIP_SUPERUSER_PRIVILEGE_CONFIGURATION_MSG r :=
  ⟨⟨by decide, by decide⟩,
    claim_c2_analyze_privileges_fixed_point spec_c2 db_c2 (by decide)
      ["GRANT SELECT ON TABLE s.a TO \"alice\";"] spec_c2 (by decide)⟩

end ClaimC2
